import Mathlib

/-!
The package campoy/apiai: a webhook router for api.ai intents.

A shallow embedding of `apiai.go` (the registry `Handler`, `Register`,
`ServeHTTP`, `Request.Param`, `HTTPRequest`) and of `example/main.go`
(`doubleHandler`), together with the parts of the Go standard library that
the code calls and whose behaviour decides what the router answers:
`unicode/utf8`, `strconv`, `encoding/json`, `context` and `net/http`.

Conventions.

* A Go `string` or `[]byte` is a list of bytes, `GoString`; a byte is a
  natural number below 256. No definition relies on the bound, so every
  theorem also covers the lists that hold larger numbers.
* Machine integers are `Nat` or `Int` with explicit wrap-around where the
  code can overflow (`int` is 64 bits wide, as on amd64 and arm64).
* A Go `error` is represented by the text of its `Error()` method; `none`
  is the nil error.
* An intent handler is a total function of its two arguments. The trace of
  handler calls that `ServeHTTP` makes is part of its result.
-/

namespace Apiai

/-! ## Byte strings -/

/-- A Go string: a sequence of bytes, not necessarily valid UTF-8. -/
abbrev GoString := List Nat

/-- The bytes of an ASCII string constant of the source. -/
def lit (s : String) : GoString := s.toList.map Char.toNat

/-- Equality of results is decidable when equality of errors and of values
is. -/
instance instDecidableEqExcept {ε α : Type} [DecidableEq ε] [DecidableEq α] :
    DecidableEq (Except ε α)
  | .ok a, .ok b => if h : a = b then isTrue (by rw [h]) else isFalse (by simp [h])
  | .error a, .error b => if h : a = b then isTrue (by rw [h]) else isFalse (by simp [h])
  | .ok _, .error _ => isFalse (by simp)
  | .error _, .ok _ => isFalse (by simp)

/-! ## unicode/utf8 -/

/-- The constant `utf8.RuneError`, U+FFFD. -/
def RuneError : Nat := 0xFFFD

/-- Lower bound of the second byte after the leading byte `s0`
(`acceptRanges[..].lo`). -/
def acceptLo (s0 : Nat) : Nat :=
  if s0 = 0xE0 then 0xA0 else if s0 = 0xF0 then 0x90 else 0x80

/-- Upper bound of the second byte after the leading byte `s0`
(`acceptRanges[..].hi`). -/
def acceptHi (s0 : Nat) : Nat :=
  if s0 = 0xED then 0x9F else if s0 = 0xF4 then 0x8F else 0xBF

/-- The function `utf8.DecodeRuneInString` (and `utf8.DecodeRune`): the first
rune of `s` and its width in bytes; `(RuneError, 1)` for an invalid encoding
and `(RuneError, 0)` for the empty string. The masks and shifts of the source
are written as `%` and `*`: `s0 & 0x1F << 6` is `s0 % 32 * 64`. -/
def DecodeRuneInString : GoString → Nat × Nat
  | [] => (RuneError, 0)
  | s0 :: t =>
    if s0 < 0x80 then (s0, 1)
    else if s0 < 0xC2 ∨ 0xF4 < s0 then (RuneError, 1)
    else
      match t with
      | [] => (RuneError, 1)
      | s1 :: t1 =>
        if s1 < acceptLo s0 ∨ acceptHi s0 < s1 then (RuneError, 1)
        else if s0 < 0xE0 then (s0 % 32 * 64 + s1 % 64, 2)
        else
          match t1 with
          | [] => (RuneError, 1)
          | s2 :: t2 =>
            if s2 < 0x80 ∨ 0xBF < s2 then (RuneError, 1)
            else if s0 < 0xF0 then (s0 % 16 * 4096 + s1 % 64 * 64 + s2 % 64, 3)
            else
              match t2 with
              | [] => (RuneError, 1)
              | s3 :: _ =>
                if s3 < 0x80 ∨ 0xBF < s3 then (RuneError, 1)
                else (s0 % 8 * 262144 + s1 % 64 * 4096 + s2 % 64 * 64 + s3 % 64, 4)

/-- The function `utf8.EncodeRune`: the UTF-8 encoding of a rune; surrogates
and values above U+10FFFF are encoded as U+FFFD. -/
def EncodeRune (r : Nat) : GoString :=
  if r ≤ 0x7F then [r]
  else if r ≤ 0x7FF then [0xC0 + r / 64, 0x80 + r % 64]
  else if 0x10FFFF < r ∨ (0xD800 ≤ r ∧ r ≤ 0xDFFF) then [0xEF, 0xBF, 0xBD]
  else if r ≤ 0xFFFF then [0xE0 + r / 4096, 0x80 + r / 64 % 64, 0x80 + r % 64]
  else [0xF0 + r / 262144, 0x80 + r / 4096 % 64, 0x80 + r / 64 % 64, 0x80 + r % 64]

/-- The loop of `utf8.ValidString`; `fuel` bounds the number of runes. -/
def validLoop : Nat → GoString → Bool
  | _, [] => true
  | 0, _ :: _ => false
  | n + 1, b :: t =>
    let d := DecodeRuneInString (b :: t)
    if d.1 = RuneError ∧ d.2 = 1 then false else validLoop n ((b :: t).drop d.2)

/-- The function `utf8.ValidString`: `s` consists of valid UTF-8 encodings
only. -/
def ValidString (s : GoString) : Bool := validLoop s.length s

/-- The string `s` with every byte that starts no valid encoding replaced by
the encoding of U+FFFD, the coercion to valid UTF-8 that `encoding/json`
documents for string values. `fuel` bounds the number of runes. -/
def coerceLoop : Nat → GoString → GoString
  | _, [] => []
  | 0, _ :: _ => []
  | n + 1, b :: t =>
    let d := DecodeRuneInString (b :: t)
    if d.1 = RuneError ∧ d.2 = 1 then [0xEF, 0xBF, 0xBD] ++ coerceLoop n t
    else (b :: t).take d.2 ++ coerceLoop n ((b :: t).drop d.2)

/-- Coercion of a string to valid UTF-8. -/
def coerceUTF8 (s : GoString) : GoString := coerceLoop s.length s

/-- The bytes that the coercion to valid UTF-8 writes for the first rune of
`b :: t`. -/
def coerceStep (b : Nat) (t : GoString) : GoString :=
  if (DecodeRuneInString (b :: t)).1 = RuneError ∧ (DecodeRuneInString (b :: t)).2 = 1 then
    [0xEF, 0xBF, 0xBD]
  else (b :: t).take (DecodeRuneInString (b :: t)).2

/-! ## encoding/json: string values -/

/-- The table `hex` of `encoding/json` (and `lowerhex` of `strconv`): the
digit `"0123456789abcdef"[i]`. -/
def hex (i : Nat) : Nat := if i < 10 then 48 + i else 87 + i

/-- The table `htmlSafeSet`: the ASCII bytes that `Marshal` copies into a
string value without escaping, which are the printable ones except the double
quote, the backslash and the characters `&`, `<`, `>`. -/
def htmlSafeSet (b : Nat) : Bool :=
  decide (0x20 ≤ b ∧ b < 0x80 ∧ b ≠ 34 ∧ b ≠ 38 ∧ b ≠ 60 ∧ b ≠ 62 ∧ b ≠ 92)

/-- One iteration of the loop of `encodeState.string` with `escapeHTML` set,
as `Marshal` and `MarshalIndent` run it, on the input `b :: t`: the bytes
written and the number of input bytes consumed. -/
def stringStep (b : Nat) (t : GoString) : GoString × Nat :=
  if b < 0x80 then
    if htmlSafeSet b then ([b], 1)
    else if b = 92 ∨ b = 34 then ([92, b], 1)
    else if b = 10 then ([92, 110], 1)
    else if b = 13 then ([92, 114], 1)
    else if b = 9 then ([92, 116], 1)
    else (lit "\\u00" ++ [hex (b / 16), hex (b % 16)], 1)
  else
    let d := DecodeRuneInString (b :: t)
    if d.1 = RuneError ∧ d.2 = 1 then (lit "\\ufffd", 1)
    else if d.1 = 0x2028 ∨ d.1 = 0x2029 then (lit "\\u202" ++ [hex (d.1 % 16)], d.2)
    else ((b :: t).take d.2, d.2)

/-- The loop of `encodeState.string`: the text between the quotes of the
JSON string for `s`. `fuel` bounds the number of iterations; the loop
consumes at least one byte per iteration, so the length of `s` is enough
(`stringLoop_fuel`). Control characters other than line feed, carriage
return and tab are written as `\u00XX`, as the releases of the time of the
package do. -/
def stringLoop : Nat → GoString → GoString
  | _, [] => []
  | 0, _ :: _ => []
  | n + 1, b :: t => (stringStep b t).1 ++ stringLoop n ((b :: t).drop (stringStep b t).2)

/-- The method `encodeState.string`: the JSON string literal for `s`, quotes
included. -/
def encodeString (s : GoString) : GoString :=
  [34] ++ stringLoop s.length s ++ [34]

/-- The value of a hexadecimal digit, `none` for any other byte. -/
def hexVal (c : Nat) : Option Nat :=
  if 48 ≤ c ∧ c ≤ 57 then some (c - 48)
  else if 97 ≤ c ∧ c ≤ 102 then some (c - 87)
  else if 65 ≤ c ∧ c ≤ 70 then some (c - 55)
  else none

/-- The function `getu4`: the rune of an escape `\uXXXX` at the start of `s`;
`none` where the source returns -1. -/
def getu4 : GoString → Option Nat
  | 92 :: 117 :: a :: b :: c :: d :: _ =>
    match hexVal a, hexVal b, hexVal c, hexVal d with
    | some x, some y, some z, some w => some (x * 4096 + y * 256 + z * 16 + w)
    | _, _, _, _ => none
  | _ => none

/-- The function `utf16.DecodeRune` applied to the results of two `getu4`
calls: the code point of a surrogate pair, U+FFFD when the pair is invalid. -/
def utf16DecodeRune (r1 : Nat) (r2 : Option Nat) : Nat :=
  match r2 with
  | some r2 =>
    if 0xD800 ≤ r1 ∧ r1 < 0xDC00 ∧ 0xDC00 ≤ r2 ∧ r2 < 0xE000 then
      (r1 - 0xD800) * 1024 + (r2 - 0xDC00) + 0x10000
    else RuneError
  | none => RuneError

/-- One iteration of the loop of `unquoteBytes` on the input `c :: t`: the
bytes written and the number of input bytes consumed; `none` where the source
reports failure. -/
def unquoteStep (c : Nat) (t : GoString) : Option (GoString × Nat) :=
  if c = 92 then
    match t with
    | [] => none
    | e :: _ =>
      if e = 34 ∨ e = 92 ∨ e = 47 ∨ e = 39 then some ([e], 2)
      else if e = 98 then some ([8], 2)
      else if e = 102 then some ([12], 2)
      else if e = 110 then some ([10], 2)
      else if e = 114 then some ([13], 2)
      else if e = 116 then some ([9], 2)
      else if e = 117 then
        match getu4 (c :: t) with
        | none => none
        | some rr =>
          if 0xD800 ≤ rr ∧ rr < 0xE000 then
            let dec := utf16DecodeRune rr (getu4 (t.drop 5))
            if dec ≠ RuneError then some (EncodeRune dec, 12)
            else some (EncodeRune RuneError, 6)
          else some (EncodeRune rr, 6)
      else none
  else if c = 34 ∨ c < 32 then none
  else if c < 0x80 then some ([c], 1)
  else
    let d := DecodeRuneInString (c :: t)
    some (EncodeRune d.1, d.2)

/-- The loop of `unquoteBytes`: the Go string that the text between the
quotes of a JSON string literal denotes, `none` where the source reports
failure. `fuel` bounds the number of iterations. -/
def unquoteLoop : Nat → GoString → Option GoString
  | _, [] => some []
  | 0, _ :: _ => none
  | n + 1, c :: t =>
    match unquoteStep c t with
    | none => none
    | some p => (unquoteLoop n ((c :: t).drop p.2)).map (p.1 ++ ·)

/-- The function `unquote` on the text between the quotes of a literal. -/
def unquote (raw : GoString) : Option GoString := unquoteLoop raw.length raw

/-! ## Library behaviour taken as a parameter -/

/-- The parts of the Go runtime library that the router reaches and that are
given by tables or by floating-point and calendar arithmetic. They are
parameters of the embedding; every theorem holds for all of them. -/
structure Runtime where
  /-- The result of `strconv.IsPrint` on a rune above U+00FF (the tables
  `isPrint16`, `isNotPrint16`, `isPrint32`, `isNotPrint32`). -/
  isPrintTable : Nat → Bool
  /-- Whether `strconv.ParseFloat(s, 64)` accepts the JSON number `s`, that
  is, whether its value is in the range of `float64`. -/
  parseFloatOk : GoString → Bool
  /-- Whether `time.Time.UnmarshalJSON` accepts the JSON string literal
  whose text between the quotes is given (an RFC 3339 time). -/
  parseTimeOk : GoString → Bool
  /-- The `Error()` text of the error that `Decoder.Decode` returns for a
  body that it rejects and that holds more than white space. -/
  decodeErrorText : GoString → GoString

/-- A runtime for evaluating the definitions on the inputs of this file,
which hold no rune above U+00FF, no number and no time, and whose rejected
bodies break off inside their first JSON value: for those `Decode` returns
`io.ErrUnexpectedEOF`. -/
def Runtime.sample : Runtime where
  isPrintTable := fun _ => true
  parseFloatOk := fun _ => true
  parseTimeOk := fun _ => true
  decodeErrorText := fun _ => lit "unexpected EOF"

/-! ## strconv and fmt -/

/-- The two errors of `strconv`: `ErrSyntax` and `ErrRange`. -/
inductive NumErr where
  | errSyntax
  | errRange
deriving DecidableEq, Repr

/-- The text of `ErrSyntax.Error()` and of `ErrRange.Error()`. -/
def NumErr.text : NumErr → GoString
  | .errSyntax => lit "invalid syntax"
  | .errRange => lit "value out of range"

/-- The width of the type `int` in bits (`strconv.IntSize`). -/
def intSize : Nat := 64

/-- The loop of `strconv.ParseUint(s, 10, 64)` with `n` the value read so
far: a byte that is no decimal digit is a syntax error; a value that does not
fit 64 bits is a range error, reported at the digit that overflows. -/
def parseUintLoop : Nat → GoString → Except NumErr Nat
  | n, [] => .ok n
  | n, c :: t =>
    if 48 ≤ c ∧ c ≤ 57 then
      if (2 ^ 64 - 1) / 10 + 1 ≤ n then .error .errRange
      else
        let m := n * 10
        let n1 := (m + (c - 48)) % 2 ^ 64
        if n1 < m ∨ 2 ^ 64 - 1 < n1 then .error .errRange else parseUintLoop n1 t
    else .error .errSyntax

/-- The function `strconv.ParseUint(s, 10, 64)`. -/
def ParseUint (s : GoString) : Except NumErr Nat :=
  if s = [] then .error .errSyntax else parseUintLoop 0 s

/-- The function `strconv.ParseInt(s, 10, bitSize)`: an optional sign and
decimal digits; the value must fit a signed integer of `bitSize` bits. -/
def ParseInt (s : GoString) (bitSize : Nat) : Except NumErr Int :=
  match s with
  | [] => .error .errSyntax
  | c :: t =>
    let neg := decide (c = 45)
    let digits := if c = 43 ∨ c = 45 then t else c :: t
    let cutoff := 2 ^ (bitSize - 1)
    match ParseUint digits with
    | .error .errSyntax => .error .errSyntax
    | .error .errRange => .error .errRange
    | .ok un =>
      if ¬ neg ∧ cutoff ≤ un then .error .errRange
      else if neg ∧ cutoff < un then .error .errRange
      else .ok (if neg then - (un : Int) else (un : Int))

/-- The function `strconv.IsPrint`. -/
def IsPrint (rt : Runtime) (r : Nat) : Bool :=
  if r ≤ 0xFF then decide ((0x20 ≤ r ∧ r < 0x7F) ∨ (0xA1 ≤ r ∧ r ≠ 0xAD))
  else rt.isPrintTable r

/-- The function `appendEscapedRune` of `strconv` for the double quote, with
`ASCIIonly` and `graphicOnly` false. -/
def appendEscapedRune (rt : Runtime) (r : Nat) : GoString :=
  if r = 34 ∨ r = 92 then [92, r]
  else if IsPrint rt r then EncodeRune r
  else if r = 7 then lit "\\a"
  else if r = 8 then lit "\\b"
  else if r = 12 then lit "\\f"
  else if r = 10 then lit "\\n"
  else if r = 13 then lit "\\r"
  else if r = 9 then lit "\\t"
  else if r = 11 then lit "\\v"
  else if r < 32 ∨ r = 0x7F then lit "\\x" ++ [hex (r / 16), hex (r % 16)]
  else if 0x10FFFF < r ∨ (0xD800 ≤ r ∧ r ≤ 0xDFFF) then lit "\\ufffd"
  else if r < 0x10000 then
    lit "\\u" ++ [hex (r / 4096 % 16), hex (r / 256 % 16), hex (r / 16 % 16), hex (r % 16)]
  else
    lit "\\U" ++ [hex (r / 268435456 % 16), hex (r / 16777216 % 16), hex (r / 1048576 % 16),
      hex (r / 65536 % 16), hex (r / 4096 % 16), hex (r / 256 % 16), hex (r / 16 % 16),
      hex (r % 16)]

/-- One iteration of the loop of `appendQuotedWith` on the input `b :: t`:
the bytes written and the number of input bytes consumed. -/
def quoteStep (rt : Runtime) (b : Nat) (t : GoString) : GoString × Nat :=
  let d := if 0x80 ≤ b then DecodeRuneInString (b :: t) else (b, 1)
  if d.2 = 1 ∧ d.1 = RuneError then (lit "\\x" ++ [hex (b / 16), hex (b % 16)], 1)
  else (appendEscapedRune rt d.1, d.2)

/-- The loop of `appendQuotedWith`; `fuel` bounds the number of runes. -/
def quoteLoop (rt : Runtime) : Nat → GoString → GoString
  | _, [] => []
  | 0, _ :: _ => []
  | n + 1, b :: t =>
    (quoteStep rt b t).1 ++ quoteLoop rt n ((b :: t).drop (quoteStep rt b t).2)

/-- The function `strconv.Quote`, which is also the verb `%q` of `fmt` on a
string: a double-quoted Go string literal for `s`. -/
def Quote (rt : Runtime) (s : GoString) : GoString :=
  [34] ++ quoteLoop rt s.length s ++ [34]

/-- The method `(*NumError).Error` for an error of `Atoi`. -/
def numErrorText (rt : Runtime) (num : GoString) (e : NumErr) : GoString :=
  lit "strconv.Atoi: parsing " ++ Quote rt num ++ lit ": " ++ e.text

/-- The function `strconv.Atoi`: `ParseInt(s, 10, 0)`, the error converted to
its text. -/
def Atoi (rt : Runtime) (s : GoString) : Except GoString Int :=
  match ParseInt s intSize with
  | .error e => .error (numErrorText rt s e)
  | .ok i => .ok i

/-- The loop of `fmtInteger` for base 10: the decimal digits of `u` written
in front of `acc`, the last digit first. `fuel` bounds the number of
iterations; with no fuel left `u` is below 10. -/
def fmtDecimal : Nat → Nat → GoString → GoString
  | 0, u, acc => (48 + u % 10) :: acc
  | fuel + 1, u, acc =>
    if 10 ≤ u then fmtDecimal fuel (u / 10) ((48 + (u - u / 10 * 10)) :: acc)
    else (48 + u) :: acc

/-- The verb `%d` of `fmt` on an `int`: decimal digits after a minus sign for
a negative number. -/
def formatInt (i : Int) : GoString :=
  (if i < 0 then [45] else []) ++ fmtDecimal i.natAbs i.natAbs []

/-- The value of type `int` that an arithmetic result wraps to. -/
def wrapInt (i : Int) : Int :=
  (i + 2 ^ (intSize - 1)) % 2 ^ intSize - 2 ^ (intSize - 1)

/-! ## encoding/json: the grammar that the scanner accepts -/

mutual
/-- A JSON value as the scanner delimits it. A number keeps its literal and
a string keeps the text between its quotes, escapes not yet resolved, which
is what `literalStore` later receives. -/
inductive JSON where
  | null
  | bool (b : Bool)
  | number (literal : GoString)
  | string (raw : GoString)
  | array (elements : JSONList)
  | object (members : JSONMembers)
/-- The elements of a JSON array, in order. -/
inductive JSONList where
  | nil
  | cons (head : JSON) (tail : JSONList)
/-- The members of a JSON object, in order; a key is kept like a string. -/
inductive JSONMembers where
  | nil
  | cons (key : GoString) (value : JSON) (tail : JSONMembers)
end

/-- The function `isSpace` of the scanner. -/
def isSpace (c : Nat) : Bool := decide (c = 32 ∨ c = 9 ∨ c = 13 ∨ c = 10)

/-- The input after its leading white space. -/
def skipSpace : GoString → GoString
  | [] => []
  | c :: t => if isSpace c then skipSpace t else c :: t

/-- The scanner states inside a string literal: `stateInString`,
`stateInStringEsc`, and `stateInStringEscU` to `stateInStringEscU123` with
the number of hexadecimal digits already read. -/
inductive StringState where
  | inString
  | inStringEsc
  | inStringEscU (seen : Nat)

/-- The scanner inside a string literal, after its opening quote: the text
up to the closing quote and the input after it; `none` for a control
character, an unknown escape or the end of input. -/
def scanString : StringState → GoString → Option (GoString × GoString)
  | _, [] => none
  | .inString, c :: t =>
    if c = 34 then some ([], t)
    else if c = 92 then (scanString .inStringEsc t).map (fun p => (c :: p.1, p.2))
    else if c < 32 then none
    else (scanString .inString t).map (fun p => (c :: p.1, p.2))
  | .inStringEsc, c :: t =>
    if c = 98 ∨ c = 102 ∨ c = 110 ∨ c = 114 ∨ c = 116 ∨ c = 92 ∨ c = 47 ∨ c = 34 then
      (scanString .inString t).map (fun p => (c :: p.1, p.2))
    else if c = 117 then (scanString (.inStringEscU 0) t).map (fun p => (c :: p.1, p.2))
    else none
  | .inStringEscU seen, c :: t =>
    if (hexVal c).isSome then
      (scanString (if seen < 3 then .inStringEscU (seen + 1) else .inString) t).map
        (fun p => (c :: p.1, p.2))
    else none

/-- A decimal digit. -/
def isDigit (c : Nat) : Bool := decide (48 ≤ c ∧ c ≤ 57)

/-- The scanner states inside a number: `stateNeg` (also the start of a
number without sign), `state0`, `state1`, `stateDot`, `stateDot0`, `stateE`,
`stateESign` and `stateE0`. -/
inductive NumberState where
  | neg
  | zero
  | digits
  | dot
  | dot0
  | e
  | eSign
  | e0

/-- Whether a number may end in the state: after a zero, after the digits of
the integer part, of the fraction or of the exponent. -/
def NumberState.complete : NumberState → Bool
  | .zero => true
  | .digits => true
  | .dot0 => true
  | .e0 => true
  | _ => false

/-- The scanner inside a number: the rest of the literal and the input after
it; `none` for a byte that cannot follow, and for the end of the input where
the number is not complete. The number ends before the first byte that does
not continue it. -/
def scanNumberFrom : NumberState → GoString → Option (GoString × GoString)
  | st, [] => if st.complete then some ([], []) else none
  | .neg, c :: t =>
    if c = 48 then (scanNumberFrom .zero t).map (fun p => (c :: p.1, p.2))
    else if 49 ≤ c ∧ c ≤ 57 then (scanNumberFrom .digits t).map (fun p => (c :: p.1, p.2))
    else none
  | .zero, c :: t =>
    if c = 46 then (scanNumberFrom .dot t).map (fun p => (c :: p.1, p.2))
    else if c = 101 ∨ c = 69 then (scanNumberFrom .e t).map (fun p => (c :: p.1, p.2))
    else some ([], c :: t)
  | .digits, c :: t =>
    if isDigit c then (scanNumberFrom .digits t).map (fun p => (c :: p.1, p.2))
    else if c = 46 then (scanNumberFrom .dot t).map (fun p => (c :: p.1, p.2))
    else if c = 101 ∨ c = 69 then (scanNumberFrom .e t).map (fun p => (c :: p.1, p.2))
    else some ([], c :: t)
  | .dot, c :: t =>
    if isDigit c then (scanNumberFrom .dot0 t).map (fun p => (c :: p.1, p.2))
    else none
  | .dot0, c :: t =>
    if isDigit c then (scanNumberFrom .dot0 t).map (fun p => (c :: p.1, p.2))
    else if c = 101 ∨ c = 69 then (scanNumberFrom .e t).map (fun p => (c :: p.1, p.2))
    else some ([], c :: t)
  | .e, c :: t =>
    if c = 43 ∨ c = 45 then (scanNumberFrom .eSign t).map (fun p => (c :: p.1, p.2))
    else if isDigit c then (scanNumberFrom .e0 t).map (fun p => (c :: p.1, p.2))
    else none
  | .eSign, c :: t =>
    if isDigit c then (scanNumberFrom .e0 t).map (fun p => (c :: p.1, p.2))
    else none
  | .e0, c :: t =>
    if isDigit c then (scanNumberFrom .e0 t).map (fun p => (c :: p.1, p.2))
    else some ([], c :: t)

/-- The scanner on a number, from its first byte, a minus sign or a digit:
the literal and the input after it. -/
def scanNumber (s : GoString) : Option (GoString × GoString) :=
  match s with
  | [] => none
  | c :: t =>
    if c = 45 then (scanNumberFrom .neg t).map (fun p => (c :: p.1, p.2))
    else scanNumberFrom .neg (c :: t)

mutual
/-- The first JSON value of the input, after optional white space, and the
input after it. `fuel` bounds the number of nested or consecutive values
(`parse_fuel` shows that `parseFuel` is enough). The limit on the nesting
depth that later releases of `encoding/json` enforce is not modelled. -/
def parseValue : Nat → GoString → Option (JSON × GoString)
  | 0, _ => none
  | n + 1, s =>
    match skipSpace s with
    | [] => none
    | c :: t =>
      if c = 123 then
        match skipSpace t with
        | [] => none
        | c1 :: t1 =>
          if c1 = 125 then some (.object .nil, t1)
          else (parseMembers n (c1 :: t1)).map (fun p => (.object p.1, p.2))
      else if c = 91 then
        match skipSpace t with
        | [] => none
        | c1 :: t1 =>
          if c1 = 93 then some (.array .nil, t1)
          else (parseElements n (c1 :: t1)).map (fun p => (.array p.1, p.2))
      else if c = 34 then (scanString .inString t).map (fun p => (.string p.1, p.2))
      else if c = 45 ∨ isDigit c then (scanNumber (c :: t)).map (fun p => (.number p.1, p.2))
      else if (c :: t).take 4 = lit "true" then some (.bool true, (c :: t).drop 4)
      else if (c :: t).take 5 = lit "false" then some (.bool false, (c :: t).drop 5)
      else if (c :: t).take 4 = lit "null" then some (.null, (c :: t).drop 4)
      else none
/-- The members of an object up to and including its closing brace; the
input starts at the quote of a key, after optional white space. -/
def parseMembers : Nat → GoString → Option (JSONMembers × GoString)
  | 0, _ => none
  | n + 1, s =>
    match skipSpace s with
    | [] => none
    | q :: t =>
      if q = 34 then
        match scanString .inString t with
        | none => none
        | some k =>
          match skipSpace k.2 with
          | [] => none
          | colon :: r1 =>
            if colon = 58 then
              match parseValue n r1 with
              | none => none
              | some v =>
                match skipSpace v.2 with
                | [] => none
                | c :: r2 =>
                  if c = 44 then (parseMembers n r2).map (fun p => (.cons k.1 v.1 p.1, p.2))
                  else if c = 125 then some (.cons k.1 v.1 .nil, r2)
                  else none
            else none
      else none
/-- The elements of an array up to and including its closing bracket. -/
def parseElements : Nat → GoString → Option (JSONList × GoString)
  | 0, _ => none
  | n + 1, s =>
    match parseValue n s with
    | none => none
    | some v =>
      match skipSpace v.2 with
      | [] => none
      | c :: r =>
        if c = 44 then (parseElements n r).map (fun p => (.cons v.1 p.1, p.2))
        else if c = 93 then some (.cons v.1 .nil, r)
        else none
end

/-- Fuel that covers every text of the given length: a value costs at most
two units of fuel for each of its bytes. -/
def parseFuel (text : GoString) : Nat := 2 * text.length + 2

/-- The method `Decoder.readValue` followed by the scan of `decodeState`: the
first JSON value of the stream. The bytes after the value are not read: the
scanner reports the end of the value at the closing brace or bracket of an
object or an array, and at the first byte that does not continue a number, a
string or a word, and it keeps its complaint about such a byte for the next
call of `Decode`, which the router never makes. -/
def readValue (body : GoString) : Option JSON :=
  match parseValue (parseFuel body) body with
  | none => none
  | some p => some p.1

/-- The function `checkValid` that `json.Unmarshal` (and `json.Valid`) runs
first: the whole text is one JSON value between optional white space. -/
def parseText (text : GoString) : Option JSON :=
  match parseValue (parseFuel text) text with
  | none => none
  | some (v, rest) => if skipSpace rest = [] then some v else none

/-! ## encoding/json: decoding into the types of the package -/

/-- The folded form of an object key under which `encoding/json` compares it
with a field name: ASCII letters in lower case, and the two runes outside
ASCII whose simple case folding is an ASCII letter, U+212A (Kelvin sign,
bytes E2 84 AA) and U+017F (long s, bytes C5 BF), replaced by `k` and `s`.
`skip` counts the bytes of such a rune that are still to be passed over. -/
def foldNameFrom : Nat → GoString → GoString
  | _, [] => []
  | skip + 1, _ :: t => foldNameFrom skip t
  | 0, c :: t =>
    if c = 0xE2 ∧ t.take 2 = [0x84, 0xAA] then 107 :: foldNameFrom 2 t
    else if c = 0xC5 ∧ t.take 1 = [0xBF] then 115 :: foldNameFrom 1 t
    else (if 65 ≤ c ∧ c ≤ 90 then c + 32 else c) :: foldNameFrom 0 t

/-- The folded form of a key or of a field name. -/
def foldName (s : GoString) : GoString := foldNameFrom 0 s

/-- Whether the object key `key` selects the struct field with the JSON name
`name`. No two fields of one struct of the package have the same folded name,
so the match of the source, exact first and folded otherwise, is this one. -/
def fieldIs (name : String) (key : GoString) : Bool :=
  decide (foldName key = foldName (lit name))

/-- The members of an object handed one by one, in order, to `f`, which
stores a member into the value decoded so far; a key is unquoted first. -/
def JSONMembers.foldM {α : Type} (f : α → GoString → JSON → Option α) :
    α → JSONMembers → Option α
  | a, .nil => some a
  | a, .cons k v ms =>
    match unquote k with
    | none => none
    | some key =>
      match f a key v with
      | none => none
      | some a1 => JSONMembers.foldM f a1 ms

/-- Decoding into a struct: `null` leaves it as it is, an object stores its
members, any other value is an `UnmarshalTypeError`. -/
def storeStruct {α : Type} (f : α → GoString → JSON → Option α) (cur : α) :
    JSON → Option α
  | .null => some cur
  | .object ms => ms.foldM f cur
  | _ => none

/-- Decoding into a `string`: `null` leaves it as it is. -/
def storeString (cur : GoString) : JSON → Option GoString
  | .null => some cur
  | .string raw => unquote raw
  | _ => none

/-- Decoding into a `bool`. -/
def storeBool (cur : Bool) : JSON → Option Bool
  | .null => some cur
  | .bool b => some b
  | _ => none

/-- Decoding into a `bool` field tagged `,string`: the value is a JSON
string that holds `true`, `false` or `null`. -/
def storeBoolQuoted (cur : Bool) : JSON → Option Bool
  | .null => some cur
  | .string raw =>
    match unquote raw with
    | none => none
    | some item =>
      if item = lit "true" then some true
      else if item = lit "false" then some false
      else if item = lit "null" then some cur
      else none
  | _ => none

/-- Decoding into an `int`: the literal is read by `strconv.ParseInt`. -/
def storeInt (cur : Int) : JSON → Option Int
  | .null => some cur
  | .number l =>
    match ParseInt l 64 with
    | .ok i => some i
    | .error _ => none
  | _ => none

/-- A `float64`, represented by a JSON number that denotes it. -/
structure Float64 where
  literal : GoString
deriving DecidableEq

/-- Decoding into a `float64`: the literal is read by `strconv.ParseFloat`. -/
def storeFloat (rt : Runtime) (cur : Float64) : JSON → Option Float64
  | .null => some cur
  | .number l => if rt.parseFloatOk l then some ⟨l⟩ else none
  | _ => none

/-- A `time.Time`: the zero time, or the time that an RFC 3339 text
denotes. -/
structure Time where
  rfc3339 : Option GoString
deriving DecidableEq

/-- Decoding into a `time.Time`, through its method `UnmarshalJSON`. -/
def storeTime (rt : Runtime) (cur : Time) : JSON → Option Time
  | .null => some cur
  | .string raw => if rt.parseTimeOk raw then some ⟨some raw⟩ else none
  | _ => none

/-- Decoding the elements of an array into a slice of `struct{}`: each must
be an object or `null`; the result is the number of elements. -/
def storeEmptyStructs : JSONList → Option Nat
  | .nil => some 0
  | .cons .null xs => (storeEmptyStructs xs).map (· + 1)
  | .cons (.object _) xs => (storeEmptyStructs xs).map (· + 1)
  | .cons _ _ => none

/-- Decoding into a `[]struct{}`: `none` is the nil slice, `some n` a slice
of length `n`. -/
def storeEmptyStructSlice (cur : Option Nat) : JSON → Option (Option Nat)
  | .null => some none
  | .array xs => (storeEmptyStructs xs).map some
  | _ => let _ := cur; none

/-- A Go map with string keys, as a list of bindings with distinct keys. -/
abbrev GoMap (α : Type) := List (GoString × α)

/-- The map with `key` bound to `v`. -/
def GoMap.set {α : Type} (m : GoMap α) (key : GoString) (v : α) : GoMap α :=
  (key, v) :: m.filter (fun p => p.1 ≠ key)

/-- The value bound to `key`, if any. -/
def GoMap.get {α : Type} (m : GoMap α) (key : GoString) : Option α :=
  (m.find? (fun p => p.1 = key)).map (·.2)

/-- Decoding into a `map[string]string`: `none` is the nil map. A member
whose value is `null` is bound to the empty string. -/
def storeStringMap (cur : Option (GoMap GoString)) : JSON → Option (Option (GoMap GoString))
  | .null => some none
  | .object ms =>
    (ms.foldM (fun m key v => (storeString [] v).map (m.set key)) (cur.getD [])).map some
  | _ => none

mutual
/-- Whether `strconv.ParseFloat` accepts every number inside the value, as
decoding into an `interface{}` requires. -/
def JSON.numbersOk (rt : Runtime) : JSON → Bool
  | .number l => rt.parseFloatOk l
  | .array xs => JSONList.numbersOk rt xs
  | .object ms => JSONMembers.numbersOk rt ms
  | _ => true
/-- The same for the elements of an array. -/
def JSONList.numbersOk (rt : Runtime) : JSONList → Bool
  | .nil => true
  | .cons x xs => JSON.numbersOk rt x && JSONList.numbersOk rt xs
/-- The same for the members of an object. -/
def JSONMembers.numbersOk (rt : Runtime) : JSONMembers → Bool
  | .nil => true
  | .cons _ v ms => JSON.numbersOk rt v && JSONMembers.numbersOk rt ms
end

/-- Decoding into a `map[string]interface{}`: `none` is the nil map; a value
is kept as the JSON value that it was decoded from. -/
def storeAnyMap (rt : Runtime) (cur : Option (GoMap JSON)) : JSON → Option (Option (GoMap JSON))
  | .null => some none
  | .object ms =>
    (ms.foldM (fun m key v => if v.numbersOk rt then some (m.set key v) else none)
      (cur.getD [])).map some
  | _ => none

/-! ## The types of the package: `Request` and `Response` -/

/-- The field `Status` of `Request`. -/
structure RequestStatus where
  ErrorType : GoString
  Code : Int

/-- The field `Result.Fulfillment` of `Request`. -/
structure ResultFulfillment where
  Messages : Option Nat
  Speech : GoString

/-- The field `Result.Metadata` of `Request`. -/
structure ResultMetadata where
  IntentID : GoString
  WebhookForSlotFillingUsed : Bool
  IntentName : GoString
  WebhookUsed : Bool

/-- The field `Result` of `Request`. -/
structure RequestResult where
  Parameters : Option (GoMap GoString)
  Contexts : Option Nat
  ResolvedQuery : GoString
  Source : GoString
  Score : Float64
  Speech : GoString
  Fulfillment : ResultFulfillment
  ActionIncomplete : Bool
  Action : GoString
  Metadata : ResultMetadata

/-- The field `OriginalRequest` of `Request`. -/
structure RequestOriginalRequest where
  Source : GoString
  Data : Option (GoMap JSON)

/-- The type `Request`: all of the information to an intent invocation. -/
structure Request where
  Lang : GoString
  Status : RequestStatus
  Timestamp : Time
  SessionID : GoString
  Result : RequestResult
  ID : GoString
  OriginalRequest : RequestOriginalRequest

/-- The zero value of `Request`, which `var req Request` declares. -/
def Request.zero : Request where
  Lang := []
  Status := { ErrorType := [], Code := 0 }
  Timestamp := ⟨none⟩
  SessionID := []
  Result :=
    { Parameters := none, Contexts := none, ResolvedQuery := [], Source := [],
      Score := ⟨[48]⟩, Speech := [],
      Fulfillment := { Messages := none, Speech := [] },
      ActionIncomplete := false, Action := [],
      Metadata :=
        { IntentID := [], WebhookForSlotFillingUsed := false, IntentName := [],
          WebhookUsed := false } }
  ID := []
  OriginalRequest := { Source := [], Data := none }

/-- The method `Request.Param`: the value associated to the given parameter
name, the empty string when there is none. -/
def Request.Param (req : Request) (name : GoString) : GoString :=
  ((req.Result.Parameters.getD []).get name).getD []

/-- The type `Response`: what an intent responds after an invocation. -/
structure Response where
  Speech : GoString
  DisplayText : GoString
deriving DecidableEq

/-- One member of an object stored into a `RequestStatus`. -/
def RequestStatus.setField (x : RequestStatus) (key : GoString) (v : JSON) :
    Option RequestStatus :=
  if fieldIs "errorType" key then (storeString x.ErrorType v).map ({ x with ErrorType := · })
  else if fieldIs "code" key then (storeInt x.Code v).map ({ x with Code := · })
  else some x

/-- One member of an object stored into a `ResultFulfillment`. -/
def ResultFulfillment.setField (x : ResultFulfillment) (key : GoString) (v : JSON) :
    Option ResultFulfillment :=
  if fieldIs "messages" key then
    (storeEmptyStructSlice x.Messages v).map ({ x with Messages := · })
  else if fieldIs "speech" key then (storeString x.Speech v).map ({ x with Speech := · })
  else some x

/-- One member of an object stored into a `ResultMetadata`. -/
def ResultMetadata.setField (x : ResultMetadata) (key : GoString) (v : JSON) :
    Option ResultMetadata :=
  if fieldIs "intentId" key then (storeString x.IntentID v).map ({ x with IntentID := · })
  else if fieldIs "webhookForSlotFillingUsed" key then
    (storeBoolQuoted x.WebhookForSlotFillingUsed v).map
      ({ x with WebhookForSlotFillingUsed := · })
  else if fieldIs "intentName" key then
    (storeString x.IntentName v).map ({ x with IntentName := · })
  else if fieldIs "webhookUsed" key then
    (storeBoolQuoted x.WebhookUsed v).map ({ x with WebhookUsed := · })
  else some x

/-- One member of an object stored into a `RequestResult`. -/
def RequestResult.setField (rt : Runtime) (x : RequestResult) (key : GoString) (v : JSON) :
    Option RequestResult :=
  if fieldIs "parameters" key then
    (storeStringMap x.Parameters v).map ({ x with Parameters := · })
  else if fieldIs "contexts" key then
    (storeEmptyStructSlice x.Contexts v).map ({ x with Contexts := · })
  else if fieldIs "resolvedQuery" key then
    (storeString x.ResolvedQuery v).map ({ x with ResolvedQuery := · })
  else if fieldIs "source" key then (storeString x.Source v).map ({ x with Source := · })
  else if fieldIs "score" key then (storeFloat rt x.Score v).map ({ x with Score := · })
  else if fieldIs "speech" key then (storeString x.Speech v).map ({ x with Speech := · })
  else if fieldIs "fulfillment" key then
    (storeStruct ResultFulfillment.setField x.Fulfillment v).map
      ({ x with Fulfillment := · })
  else if fieldIs "actionIncomplete" key then
    (storeBool x.ActionIncomplete v).map ({ x with ActionIncomplete := · })
  else if fieldIs "action" key then (storeString x.Action v).map ({ x with Action := · })
  else if fieldIs "metadata" key then
    (storeStruct ResultMetadata.setField x.Metadata v).map ({ x with Metadata := · })
  else some x

/-- One member of an object stored into a `RequestOriginalRequest`. -/
def RequestOriginalRequest.setField (rt : Runtime) (x : RequestOriginalRequest)
    (key : GoString) (v : JSON) : Option RequestOriginalRequest :=
  if fieldIs "source" key then (storeString x.Source v).map ({ x with Source := · })
  else if fieldIs "data" key then (storeAnyMap rt x.Data v).map ({ x with Data := · })
  else some x

/-- One member of an object stored into a `Request`; a key that names no
field is passed over. -/
def Request.setField (rt : Runtime) (x : Request) (key : GoString) (v : JSON) :
    Option Request :=
  if fieldIs "lang" key then (storeString x.Lang v).map ({ x with Lang := · })
  else if fieldIs "status" key then
    (storeStruct RequestStatus.setField x.Status v).map ({ x with Status := · })
  else if fieldIs "timestamp" key then
    (storeTime rt x.Timestamp v).map ({ x with Timestamp := · })
  else if fieldIs "sessionId" key then
    (storeString x.SessionID v).map ({ x with SessionID := · })
  else if fieldIs "result" key then
    (storeStruct (RequestResult.setField rt) x.Result v).map ({ x with Result := · })
  else if fieldIs "id" key then (storeString x.ID v).map ({ x with ID := · })
  else if fieldIs "originalRequest" key then
    (storeStruct (RequestOriginalRequest.setField rt) x.OriginalRequest v).map
      ({ x with OriginalRequest := · })
  else some x

/-- The call `json.NewDecoder(r.Body).Decode(&req)` of `ServeHTTP` on a body
that is read without error: the first JSON value of the body is decoded into
a zero `Request`. The result is the request, or the text of the error, which
is `EOF` (the error `io.EOF`) for a body that holds white space only. -/
def Decode (rt : Runtime) (body : GoString) : Except GoString Request :=
  match readValue body with
  | none => .error (if skipSpace body = [] then lit "EOF" else rt.decodeErrorText body)
  | some v =>
    match storeStruct (Request.setField rt) Request.zero v with
    | none => .error (rt.decodeErrorText body)
    | some req => .ok req

/-- One member of an object stored into a `Response`. -/
def Response.setField (x : Response) (key : GoString) (v : JSON) : Option Response :=
  if fieldIs "speech" key then (storeString x.Speech v).map ({ x with Speech := · })
  else if fieldIs "displayText" key then
    (storeString x.DisplayText v).map ({ x with DisplayText := · })
  else some x

/-- The call `json.Unmarshal(text, &res)` for a zero `res` of type `Response`,
the way a client of the webhook decodes the body. -/
def unmarshalResponse (text : GoString) : Option Response :=
  match parseText text with
  | none => none
  | some v => storeStruct Response.setField { Speech := [], DisplayText := [] } v

/-- The call `json.MarshalIndent(res, "", "  ")` for `res` of type
`*Response`: a nil pointer is encoded as `null`; a `Response` as an object
with the members `speech` and `displayText` in the order of the fields, each
on a line of its own, indented by two spaces, a space after each colon. The
second component is the error, which is nil for every `Response`. -/
def MarshalIndent (res : Option Response) : GoString × Option GoString :=
  match res with
  | none => (lit "null", none)
  | some r =>
    (lit "\x7b\n  \"speech\": " ++ encodeString r.Speech ++
      lit ",\n  \"displayText\": " ++ encodeString r.DisplayText ++ lit "\n\x7d", none)

/-! ## context and net/http -/

/-- A context key, an interface value: two keys are equal when their dynamic
types and their values are. -/
structure Key where
  typ : String
  val : GoString
deriving DecidableEq

mutual
/-- A `context.Context`, as far as `Value` can tell: the background, or a
context derived from a parent with a cancellation or a deadline (which binds
nothing), or with one binding of a key. -/
inductive Context where
  | background
  | withCancel (parent : Context)
  | withValue (parent : Context) (key : Key) (val : Any)
/-- A value bound in a context, an interface value: a pointer to a request,
a nil pointer of that type, or a value of any other dynamic type. -/
inductive Any where
  | request (r : HttpRequest)
  | nilRequest
  | other (typ : String) (repr : GoString)
/-- A `*http.Request` that is not nil: its address, which tells it from any
other request, and what the router reads of it, its context and its body. -/
inductive HttpRequest where
  | mk (addr : Nat) (ctx : Context) (body : GoString)
end

/-- The method `(*http.Request).Context`. -/
def HttpRequest.Context : HttpRequest → Context
  | .mk _ ctx _ => ctx

/-- The bytes that reading `r.Body` to its end yields. -/
def HttpRequest.Body : HttpRequest → GoString
  | .mk _ _ body => body

/-- The method `Context.Value`: the value of the innermost binding of `key`,
`none` (the nil interface) when there is no binding. -/
def Context.Value : Context → Key → Option Any
  | .background, _ => none
  | .withCancel parent, key => parent.Value key
  | .withValue parent k v, key => if k = key then some v else parent.Value key

/-- The function `context.WithValue`. -/
def Context.WithValue (parent : Context) (key : Key) (val : Any) : Context :=
  .withValue parent key val

/-- An `http.ResponseWriter` that records the response, like
`httptest.ResponseRecorder`: the header map, the status code once the header
has been written, and the body. -/
structure ResponseWriter where
  header : List (String × String)
  status : Option Nat
  body : GoString

/-- A response writer to which nothing has been written. -/
def ResponseWriter.fresh : ResponseWriter where
  header := []
  status := none
  body := []

/-- The method `Header().Set`. -/
def ResponseWriter.SetHeader (w : ResponseWriter) (k v : String) : ResponseWriter :=
  { w with header := (k, v) :: w.header.filter (fun p => p.1 ≠ k) }

/-- The method `WriteHeader`: the first call sets the status code. -/
def ResponseWriter.WriteHeader (w : ResponseWriter) (code : Nat) : ResponseWriter :=
  match w.status with
  | none => { w with status := some code }
  | some _ => w

/-- The method `Write`: an implicit `WriteHeader(http.StatusOK)` if the
header has not been written, then the bytes are appended to the body. -/
def ResponseWriter.Write (w : ResponseWriter) (b : GoString) : ResponseWriter :=
  let w1 := w.WriteHeader 200
  { w1 with body := w1.body ++ b }

/-- The function `http.Error`: a plain-text reply with the given status code
whose body is the message and a newline. -/
def httpError (w : ResponseWriter) (error : GoString) (code : Nat) : ResponseWriter :=
  (((w.SetHeader "Content-Type" "text/plain; charset=utf-8").SetHeader
    "X-Content-Type-Options" "nosniff").WriteHeader code).Write (error ++ [10])

/-- The constant `http.StatusBadRequest`. -/
def StatusBadRequest : Nat := 400

/-- The constant `http.StatusInternalServerError`. -/
def StatusInternalServerError : Nat := 500

/-- The constant `http.StatusOK`. -/
def StatusOK : Nat := 200

/-! ## apiai.go -/

/-- The type `IntentHandler`: a function from a context and a request to a
`*Response`, which may be nil, and an error, which may be nil. -/
abbrev IntentHandler := Context → Request → Option Response × Option GoString

/-- The type `Handler`: the map from intent names to their handlers. The
mutex `mu` serialises the accesses to the map and has no state of its own
between calls. -/
structure Handler where
  handlers : GoString → Option IntentHandler

/-- The function `NewHandler`: a new empty handler. -/
def NewHandler : Handler where
  handlers := fun _ => none

/-- The method `Handler.Register`: `h.handlers[intent] = handler`. -/
def Handler.Register (h : Handler) (intent : GoString) (handler : IntentHandler) : Handler where
  handlers := fun name => if name = intent then some handler else h.handlers name

/-- The constant `httpRequestKey`, of the unexported type `key`. -/
def httpRequestKey : Key := { typ := "apiai.key", val := lit "httprequest" }

/-- The function `HTTPRequest`: the HTTP request associated to the given
context, or nil (`none`). -/
def HTTPRequest (ctx : Context) : Option HttpRequest :=
  match ctx.Value httpRequestKey with
  | some (.request r) => some r
  | some .nilRequest => none
  | some (.other _ _) => none
  | none => none

/-- One call of an intent handler: the name it was looked up under and the
arguments it received. -/
structure Call where
  intent : GoString
  ctx : Context
  req : Request

/-- What a call of `ServeHTTP` leaves behind: the response writer and the
handler calls made, in order. -/
structure Served where
  w : ResponseWriter
  calls : List Call

/-- The method `Handler.ServeHTTP`. -/
def Handler.ServeHTTP (rt : Runtime) (h : Handler) (w : ResponseWriter) (r : HttpRequest) :
    Served :=
  match Decode rt r.Body with
  | .error err =>
    { w := httpError w (lit "could not decode request: " ++ err) StatusBadRequest, calls := [] }
  | .ok req =>
    let intent := req.Result.Metadata.IntentName
    match h.handlers intent with
    | none =>
      { w := httpError w (lit "could not find handler for " ++ intent)
          StatusInternalServerError,
        calls := [] }
    | some handler =>
      let ctx := Context.WithValue r.Context httpRequestKey (.request r)
      let calls := [{ intent := intent, ctx := ctx, req := req : Call }]
      match handler ctx req with
      | (_, some err) =>
        { w := httpError w (lit "error processing intent:" ++ err) StatusInternalServerError,
          calls := calls }
      | (res, none) =>
        match MarshalIndent res with
        | (_, some err) =>
          { w := httpError w (lit "could not encode response: " ++ err)
              StatusInternalServerError,
            calls := calls }
        | (b, none) => { w := w.Write b, calls := calls }

/-! ## example/main.go -/

/-- The function `doubleHandler` of the example: it reads the parameter `num`
as an integer and answers with its double. The product `2*num` is computed in
the type `int`. The error message quotes the parameter `number`. -/
def doubleHandler (rt : Runtime) : IntentHandler := fun _ req =>
  match Atoi rt (req.Param (lit "num")) with
  | .error err =>
    (none, some (lit "could not parse number " ++ Quote rt (req.Param (lit "number")) ++
      lit ": " ++ err))
  | .ok num =>
    (some
      { Speech := formatInt num ++ lit " times two equals " ++ formatInt (wrapInt (2 * num)),
        DisplayText := [] },
     none)

/-- The registry that `main` serves: `NewHandler` with `double` registered. -/
def mainHandler (rt : Runtime) : Handler :=
  NewHandler.Register (lit "double") (doubleHandler rt)

/-! ## Definitions used to state the claims -/

/-- A sequence of `Register` calls, in the order of the list. -/
def registerAll (h : Handler) (regs : List (GoString × IntentHandler)) : Handler :=
  regs.foldl (fun acc p => acc.Register p.1 p.2) h

/-- A body that is well-formed JSON for the `Request` envelope, as the
specification words the precondition of the decode step: the whole body is
one JSON text, and that text decodes into a `Request` (what `json.Unmarshal`
accepts). -/
def wellFormedEnvelope (rt : Runtime) (body : GoString) : Bool :=
  match parseText body with
  | none => false
  | some v => (storeStruct (Request.setField rt) Request.zero v).isSome

/-- A string of printable ASCII characters other than the double quote and
the backslash, which `strconv.Quote` copies as they are. -/
def plainASCII (s : GoString) : Prop :=
  ∀ c ∈ s, 0x20 ≤ c ∧ c < 0x7F ∧ c ≠ 34 ∧ c ≠ 92

/-- The body of an example exchange: an envelope with the given intent
name and with the parameter `num` set to the given text. -/
def exampleBody (intent num : String) : GoString :=
  lit "\x7b\"result\":\x7b\"parameters\":\x7b\"num\":\"" ++ lit num ++
    lit "\"\x7d,\"metadata\":\x7b\"intentName\":\"" ++ lit intent ++ lit "\"\x7d\x7d\x7d"

/-- The request that `exampleBody` decodes into. -/
def exampleRequest (intent num : String) : Request :=
  { Request.zero with
    Result :=
      { Request.zero.Result with
        Parameters := some [(lit "num", lit num)]
        Metadata := { Request.zero.Result.Metadata with IntentName := lit intent } } }

/-- An HTTP request with the given body, in the background context. -/
def post (body : GoString) : HttpRequest := .mk 0 .background body

/-- The speech that the example promises for the number `n`:
`<n> times two equals <2n>`, both numbers in decimal. -/
def doubleSpeech (n : Int) : GoString :=
  formatInt n ++ lit " times two equals " ++ formatInt (2 * n)

/-- A handler that fails with a fixed error. -/
def failingHandler : IntentHandler := fun _ _ => (none, some (lit "backend unavailable"))

/-- A handler that returns a nil `*Response` and a nil error. -/
def silentHandler : IntentHandler := fun _ _ => (none, none)

/-- A handler that answers with the parameter `num` as it is. -/
def echoHandler : IntentHandler := fun _ req =>
  (some { Speech := req.Param (lit "num"), DisplayText := [] }, none)

/-- A handler that answers with the single byte FF, which is not valid
UTF-8. -/
def rawHandler : IntentHandler := fun _ _ =>
  (some { Speech := [0xFF], DisplayText := [] }, none)

/-- A handler that asks `HTTPRequest` for the HTTP request of its context and
answers with the body of the request that it finds. -/
def originHandler : IntentHandler := fun ctx _ =>
  match HTTPRequest ctx with
  | some q => (some { Speech := q.Body, DisplayText := [] }, none)
  | none => (none, some (lit "no request in the context"))

/-! ## Definitions used to state the lemmas on the parser -/

/-- A byte that can continue a number: a digit, the point, `e`, `E` or a
sign. -/
def continuesNumber (c : Nat) : Bool :=
  isDigit c || decide (c = 46 ∨ c = 101 ∨ c = 69 ∨ c = 43 ∨ c = 45)

/-- An input before which a number ends: the empty input, or one whose first
byte does not continue a number. -/
def endsNumber : GoString → Bool
  | [] => true
  | c :: _ => !continuesNumber c

/-- A JSON value that is a number. -/
def JSON.isNumber : JSON → Bool
  | .number _ => true
  | _ => false

/-! ## Lemmas: UTF-8 -/

theorem lit_u00 : lit "\\u00" = [92, 117, 48, 48] := by decide
theorem lit_ufffd : lit "\\ufffd" = [92, 117, 102, 102, 102, 100] := by decide
theorem lit_u202 : lit "\\u202" = [92, 117, 50, 48, 50] := by decide

/-- The shapes of input on which `DecodeRuneInString` succeeds past ASCII. -/
theorem decode_cases (b : Nat) (t : GoString) (hb : 0x80 ≤ b) :
    DecodeRuneInString (b :: t) = (RuneError, 1) ∨
    (∃ s1 t1, t = s1 :: t1 ∧ 0xC2 ≤ b ∧ b < 0xE0 ∧ 0x80 ≤ s1 ∧ s1 ≤ 0xBF ∧
      DecodeRuneInString (b :: t) = (b % 32 * 64 + s1 % 64, 2)) ∨
    (∃ s1 s2 t2, t = s1 :: s2 :: t2 ∧ 0xE0 ≤ b ∧ b < 0xF0 ∧ acceptLo b ≤ s1 ∧ s1 ≤ acceptHi b ∧
      0x80 ≤ s2 ∧ s2 ≤ 0xBF ∧
      DecodeRuneInString (b :: t) = (b % 16 * 4096 + s1 % 64 * 64 + s2 % 64, 3)) ∨
    (∃ s1 s2 s3 t3, t = s1 :: s2 :: s3 :: t3 ∧ 0xF0 ≤ b ∧ b ≤ 0xF4 ∧ acceptLo b ≤ s1 ∧
      s1 ≤ acceptHi b ∧ 0x80 ≤ s2 ∧ s2 ≤ 0xBF ∧ 0x80 ≤ s3 ∧ s3 ≤ 0xBF ∧
      DecodeRuneInString (b :: t) =
        (b % 8 * 262144 + s1 % 64 * 4096 + s2 % 64 * 64 + s3 % 64, 4)) := by
  have hb1 : ¬ b < 128 := by omega
  by_cases h0 : b < 0xC2 ∨ 0xF4 < b
  · left; simp [DecodeRuneInString, hb1, h0]
  rcases t with _ | ⟨s1, t1⟩
  · left; simp [DecodeRuneInString, hb1, h0]
  by_cases h1 : s1 < acceptLo b ∨ acceptHi b < s1
  · left; simp [DecodeRuneInString, hb1, h0, h1]
  have hlo : 0x80 ≤ acceptLo b := by unfold acceptLo; split_ifs <;> omega
  have hhi : acceptHi b ≤ 0xBF := by unfold acceptHi; split_ifs <;> omega
  by_cases h2 : b < 0xE0
  · right; left
    refine ⟨s1, t1, rfl, by omega, h2, by omega, by omega, ?_⟩
    simp [DecodeRuneInString, hb1, h0, h1, h2]
  rcases t1 with _ | ⟨s2, t2⟩
  · left; simp [DecodeRuneInString, hb1, h0, h1, h2]
  by_cases h3 : s2 < 0x80 ∨ 0xBF < s2
  · left; simp [DecodeRuneInString, hb1, h0, h1, h2, h3]
  by_cases h4 : b < 0xF0
  · right; right; left
    refine ⟨s1, s2, t2, rfl, by omega, h4, by omega, by omega, by omega, by omega, ?_⟩
    simp [DecodeRuneInString, hb1, h0, h1, h2, h3, h4]
  rcases t2 with _ | ⟨s3, t3⟩
  · left; simp [DecodeRuneInString, hb1, h0, h1, h2, h3, h4]
  by_cases h5 : s3 < 0x80 ∨ 0xBF < s3
  · left; simp [DecodeRuneInString, hb1, h0, h1, h2, h3, h4, h5]
  right; right; right
  refine ⟨s1, s2, s3, t3, rfl, by omega, by omega, by omega, by omega, by omega, by omega,
    by omega, by omega, ?_⟩
  simp [DecodeRuneInString, hb1, h0, h1, h2, h3, h4, h5]

/-- Decoding a two-byte encoding. -/
theorem decode_two (b s1 : Nat) (t : GoString) (h1 : 0xC2 ≤ b) (h2 : b < 0xE0)
    (h3 : 0x80 ≤ s1) (h4 : s1 ≤ 0xBF) :
    DecodeRuneInString (b :: s1 :: t) = (b % 32 * 64 + s1 % 64, 2) := by
  have e1 : ¬ b < 128 := by omega
  have e2 : ¬ (b < 0xC2 ∨ 0xF4 < b) := by omega
  have e3 : ¬ (s1 < acceptLo b ∨ acceptHi b < s1) := by
    unfold acceptLo acceptHi; split_ifs <;> omega
  simp [DecodeRuneInString, e1, e2, e3, h2]

/-- Decoding a three-byte encoding. -/
theorem decode_three (b s1 s2 : Nat) (t : GoString) (h1 : 0xE0 ≤ b) (h2 : b < 0xF0)
    (h3 : acceptLo b ≤ s1) (h4 : s1 ≤ acceptHi b) (h5 : 0x80 ≤ s2) (h6 : s2 ≤ 0xBF) :
    DecodeRuneInString (b :: s1 :: s2 :: t) =
      (b % 16 * 4096 + s1 % 64 * 64 + s2 % 64, 3) := by
  have e1 : ¬ b < 128 := by omega
  have e2 : ¬ (b < 0xC2 ∨ 0xF4 < b) := by omega
  have e3 : ¬ (s1 < acceptLo b ∨ acceptHi b < s1) := by omega
  have e4 : ¬ b < 0xE0 := by omega
  have e5 : ¬ (s2 < 0x80 ∨ 0xBF < s2) := by omega
  simp [DecodeRuneInString, e1, e2, e3, e4, e5, h2]

/-- Decoding a four-byte encoding. -/
theorem decode_four (b s1 s2 s3 : Nat) (t : GoString) (h1 : 0xF0 ≤ b) (h2 : b ≤ 0xF4)
    (h3 : acceptLo b ≤ s1) (h4 : s1 ≤ acceptHi b) (h5 : 0x80 ≤ s2) (h6 : s2 ≤ 0xBF)
    (h7 : 0x80 ≤ s3) (h8 : s3 ≤ 0xBF) :
    DecodeRuneInString (b :: s1 :: s2 :: s3 :: t) =
      (b % 8 * 262144 + s1 % 64 * 4096 + s2 % 64 * 64 + s3 % 64, 4) := by
  have e1 : ¬ b < 128 := by omega
  have e2 : ¬ (b < 0xC2 ∨ 0xF4 < b) := by omega
  have e3 : ¬ (s1 < acceptLo b ∨ acceptHi b < s1) := by omega
  have e4 : ¬ b < 0xE0 := by omega
  have e5 : ¬ (s2 < 0x80 ∨ 0xBF < s2) := by omega
  have e6 : ¬ b < 0xF0 := by omega
  have e7 : ¬ (s3 < 0x80 ∨ 0xBF < s3) := by omega
  simp [DecodeRuneInString, e1, e2, e3, e4, e5, e6, e7]

/-- What a successful multi-byte decoding says about the bytes decoded. -/
theorem decode_multibyte (b : Nat) (t : GoString) (hb : 0x80 ≤ b)
    (h : ¬ ((DecodeRuneInString (b :: t)).1 = RuneError ∧ (DecodeRuneInString (b :: t)).2 = 1)) :
    2 ≤ (DecodeRuneInString (b :: t)).2 ∧
    (DecodeRuneInString (b :: t)).2 ≤ (b :: t).length ∧
    EncodeRune (DecodeRuneInString (b :: t)).1 = (b :: t).take (DecodeRuneInString (b :: t)).2 ∧
    (∀ x ∈ (b :: t).take (DecodeRuneInString (b :: t)).2, 0x80 ≤ x) ∧
    (∀ rest, DecodeRuneInString ((b :: t).take (DecodeRuneInString (b :: t)).2 ++ rest)
      = DecodeRuneInString (b :: t)) := by
  rcases decode_cases b t hb with he | ⟨s1, t1, rfl, h1, h2, h3, h4, he⟩ |
    ⟨s1, s2, t2, rfl, h1, h2, h3, h4, h5, h6, he⟩ |
    ⟨s1, s2, s3, t3, rfl, h1, h2, h3, h4, h5, h6, h7, h8, he⟩
  · rw [he] at h; simp at h
  · rw [he]
    refine ⟨by simp, by simp, ?_, ?_, ?_⟩
    · simp only [EncodeRune, List.take]
      rw [if_neg (by omega), if_pos (by omega)]
      congr 1 <;> [omega; (congr 1; omega)]
    · simp; omega
    · intro rest
      exact decode_two b s1 rest h1 h2 h3 h4
  · have hlo : 0x80 ≤ acceptLo b := by unfold acceptLo; split_ifs <;> omega
    have hhi : acceptHi b ≤ 0xBF := by unfold acceptHi; split_ifs <;> omega
    have hr : 0x800 ≤ b % 16 * 4096 + s1 % 64 * 64 + s2 % 64 ∧
        b % 16 * 4096 + s1 % 64 * 64 + s2 % 64 ≤ 0xFFFF ∧
        ¬ (0xD800 ≤ b % 16 * 4096 + s1 % 64 * 64 + s2 % 64 ∧
          b % 16 * 4096 + s1 % 64 * 64 + s2 % 64 ≤ 0xDFFF) := by
      unfold acceptLo at h3; unfold acceptHi at h4
      split_ifs at h3 h4 <;> omega
    rw [he]
    refine ⟨by simp, by simp, ?_, ?_, ?_⟩
    · simp only [EncodeRune, List.take]
      rw [if_neg (by omega), if_neg (by omega), if_neg (by omega), if_pos (by omega)]
      congr 1 <;> [omega; (congr 1 <;> [omega; (congr 1; omega)])]
    · simp; omega
    · intro rest
      exact decode_three b s1 s2 rest h1 h2 h3 h4 h5 h6
  · have hlo : 0x80 ≤ acceptLo b := by unfold acceptLo; split_ifs <;> omega
    have hhi : acceptHi b ≤ 0xBF := by unfold acceptHi; split_ifs <;> omega
    have hr : 0x10000 ≤ b % 8 * 262144 + s1 % 64 * 4096 + s2 % 64 * 64 + s3 % 64 ∧
        b % 8 * 262144 + s1 % 64 * 4096 + s2 % 64 * 64 + s3 % 64 ≤ 0x10FFFF := by
      unfold acceptLo at h3; unfold acceptHi at h4
      split_ifs at h3 h4 <;> omega
    rw [he]
    refine ⟨by simp, by simp, ?_, ?_, ?_⟩
    · simp only [EncodeRune, List.take]
      rw [if_neg (by omega), if_neg (by omega), if_neg (by omega), if_neg (by omega)]
      congr 1 <;> [omega; (congr 1 <;> [omega; (congr 1 <;> [omega; (congr 1; omega)])])]
    · simp; omega
    · intro rest
      exact decode_four b s1 s2 s3 rest h1 h2 h3 h4 h5 h6 h7 h8

/-! ## Lemmas: JSON string values -/

theorem unquoteLoop_nil (m : Nat) : unquoteLoop m [] = some [] := by
  cases m <;> rfl

theorem unquoteLoop_cons (m c : Nat) (t : GoString) (out : GoString) (k : Nat)
    (h : unquoteStep c t = some (out, k)) :
    unquoteLoop (m + 1) (c :: t) = (unquoteLoop m ((c :: t).drop k)).map (out ++ ·) := by
  rw [unquoteLoop, h]

theorem hexVal_hex (i : Nat) (h : i < 16) : hexVal (hex i) = some i := by
  unfold hex hexVal
  split_ifs <;> first | omega | (congr 1; omega)

theorem getu4_u00 (b : Nat) (t : GoString) (h : b < 256) :
    getu4 (92 :: 117 :: 48 :: 48 :: hex (b / 16) :: hex (b % 16) :: t) = some b := by
  have h0 : hexVal 48 = some 0 := by decide
  have h1 := hexVal_hex (b / 16) (by omega)
  have h2 := hexVal_hex (b % 16) (by omega)
  simp only [getu4, h0, h1, h2]
  congr 1; omega

theorem decode_ascii (b : Nat) (t : GoString) (h : b < 0x80) :
    DecodeRuneInString (b :: t) = (b, 1) := by
  simp [DecodeRuneInString, h]

/-- One iteration of the decoder undoes one iteration of the encoder, up to
the coercion of invalid bytes. -/
theorem unquoteStep_stringStep (b : Nat) (t rest : GoString) :
    ∃ c out, (stringStep b t).1 ++ rest = c :: out ∧
      unquoteStep c out = some (coerceStep b t, (stringStep b t).1.length) := by
  unfold stringStep coerceStep
  by_cases hb : b < 0x80
  · rw [decode_ascii b t hb]
    have hne : ¬ b = RuneError := by unfold RuneError; omega
    have hs : ¬ (0xD800 ≤ b ∧ b < 0xE000) := by omega
    have henc : EncodeRune b = [b] := by simp [EncodeRune]; omega
    simp only [hb, if_true, hne, if_false, List.take, false_and]
    by_cases h1 : htmlSafeSet b
    · simp only [h1, if_true]
      refine ⟨b, rest, rfl, ?_⟩
      simp [htmlSafeSet] at h1
      have e1 : ¬ b = 92 := by omega
      have e2 : ¬ (b = 34 ∨ b < 32) := by omega
      simp [unquoteStep, e1, e2, hb]
    simp only [h1, if_false, Bool.false_eq_true]
    by_cases h2 : b = 92 ∨ b = 34
    · simp only [h2, if_true]
      refine ⟨92, b :: rest, rfl, ?_⟩
      have e1 : b = 34 ∨ b = 92 ∨ b = 47 ∨ b = 39 := by omega
      simp [unquoteStep, e1]
    simp only [h2, if_false]
    by_cases h3 : b = 10
    · subst h3; exact ⟨92, 110 :: rest, rfl, by simp [unquoteStep]⟩
    simp only [h3, if_false]
    by_cases h4 : b = 13
    · subst h4; exact ⟨92, 114 :: rest, rfl, by simp [unquoteStep]⟩
    simp only [h4, if_false]
    by_cases h5 : b = 9
    · subst h5; exact ⟨92, 116 :: rest, rfl, by simp [unquoteStep]⟩
    simp only [h5, if_false, lit_u00]
    refine ⟨92, 117 :: 48 :: 48 :: hex (b / 16) :: hex (b % 16) :: rest, rfl, ?_⟩
    have hg := getu4_u00 b rest (by omega)
    simp [unquoteStep, hg, hs, henc]
  · have hb1 : 0x80 ≤ b := by omega
    simp only [hb, if_false]
    by_cases hinv : (DecodeRuneInString (b :: t)).1 = RuneError ∧
        (DecodeRuneInString (b :: t)).2 = 1
    · simp only [hinv, and_self, if_true, lit_ufffd]
      refine ⟨92, 117 :: 102 :: 102 :: 102 :: 100 :: rest, rfl, ?_⟩
      have hg : getu4 (92 :: 117 :: 102 :: 102 :: 102 :: 100 :: rest) = some 0xFFFD := by
        simp [getu4, hexVal]
      simp [unquoteStep, hg, EncodeRune]
    obtain ⟨hk2, hklen, henc, hge, hdec⟩ := decode_multibyte b t hb1 hinv
    simp only [hinv, if_false]
    obtain ⟨k, hk⟩ : ∃ k, (DecodeRuneInString (b :: t)).2 = k + 2 :=
      ⟨(DecodeRuneInString (b :: t)).2 - 2, by omega⟩
    by_cases hls : (DecodeRuneInString (b :: t)).1 = 0x2028 ∨
        (DecodeRuneInString (b :: t)).1 = 0x2029
    · simp only [hls, if_true, lit_u202]
      refine ⟨92, 117 :: 50 :: 48 :: 50 :: hex ((DecodeRuneInString (b :: t)).1 % 16) :: rest,
        rfl, ?_⟩
      have hg : getu4 (92 :: 117 :: 50 :: 48 :: 50 ::
          hex ((DecodeRuneInString (b :: t)).1 % 16) :: rest) =
          some (DecodeRuneInString (b :: t)).1 := by
        rcases hls with h | h <;> rw [h] <;> simp [getu4, hexVal, hex]
      have hs : ¬ (0xD800 ≤ (DecodeRuneInString (b :: t)).1 ∧
          (DecodeRuneInString (b :: t)).1 < 0xE000) := by
        rcases hls with h | h <;> rw [h] <;> omega
      simp [unquoteStep, hg, hs, henc]
    · simp only [hls, if_false]
      refine ⟨b, t.take (k + 1) ++ rest, by rw [hk]; simp, ?_⟩
      have e1 : ¬ b = 92 := by omega
      have e2 : ¬ (b = 34 ∨ b < 32) := by omega
      have hd := hdec rest
      rw [hk] at hd
      simp only [List.take_succ_cons, List.cons_append] at hd
      simp only [unquoteStep, e1, e2, hb, if_false, hd, henc]
      rw [hk]
      simp
      rw [hk] at hklen
      simp only [List.length_cons] at hklen
      omega

theorem stringStep_consumed (b : Nat) (t : GoString) :
    1 ≤ (stringStep b t).2 ∧
    (stringStep b t).2 =
      if (DecodeRuneInString (b :: t)).1 = RuneError ∧ (DecodeRuneInString (b :: t)).2 = 1
      then 1 else (DecodeRuneInString (b :: t)).2 := by
  unfold stringStep
  by_cases hb : b < 0x80
  · rw [decode_ascii b t hb]
    simp only [hb, if_true]
    split_ifs <;> simp
  · simp only [hb, if_false]
    by_cases hinv : (DecodeRuneInString (b :: t)).1 = RuneError ∧
        (DecodeRuneInString (b :: t)).2 = 1
    · simp [hinv]
    · have h2 := (decode_multibyte b t (by omega) hinv).1
      simp only [hinv, if_false]
      split_ifs <;> exact ⟨by omega, rfl⟩

theorem coerceLoop_cons (n b : Nat) (t : GoString) :
    coerceLoop (n + 1) (b :: t) =
      coerceStep b t ++ coerceLoop n ((b :: t).drop (stringStep b t).2) := by
  rw [coerceLoop, (stringStep_consumed b t).2]
  unfold coerceStep
  by_cases hinv : (DecodeRuneInString (b :: t)).1 = RuneError ∧
      (DecodeRuneInString (b :: t)).2 = 1
  · simp [hinv]
  · simp [hinv]

/-- Unquoting the text that the encoder writes for `s` yields `s` coerced to
valid UTF-8, whenever the fuel of both loops covers their inputs. -/
theorem unquoteLoop_stringLoop (n : Nat) :
    ∀ s : GoString, s.length ≤ n → ∀ m, (stringLoop n s).length ≤ m →
      unquoteLoop m (stringLoop n s) = some (coerceLoop n s) := by
  induction n with
  | zero =>
    intro s hs m _
    have : s = [] := List.length_eq_zero.mp (by omega)
    subst this
    simp [stringLoop, coerceLoop, unquoteLoop_nil]
  | succ n ih =>
    intro s hs m hm
    rcases s with _ | ⟨b, t⟩
    · simp [stringLoop, coerceLoop, unquoteLoop_nil]
    · rw [coerceLoop_cons]
      rw [stringLoop] at hm ⊢
      obtain ⟨c, out, heq, hstep⟩ :=
        unquoteStep_stringStep b t (stringLoop n ((b :: t).drop (stringStep b t).2))
      have h1 := (stringStep_consumed b t).1
      have hlen : ((b :: t).drop (stringStep b t).2).length ≤ n := by
        simp only [List.length_drop, List.length_cons] at hs ⊢
        omega
      have hne : 1 ≤ (stringStep b t).1.length := by
        obtain ⟨c1, out1, h1, _⟩ := unquoteStep_stringStep b t []
        rw [List.append_nil] at h1
        rw [h1]; simp
      rw [List.length_append] at hm
      obtain ⟨m, rfl⟩ : ∃ k, m = k + 1 := ⟨m - 1, by omega⟩
      have hdrop : (c :: out).drop (stringStep b t).1.length =
          stringLoop n ((b :: t).drop (stringStep b t).2) := by
        rw [← heq]; simp
      rw [heq, unquoteLoop_cons m c out _ _ hstep, hdrop, ih _ hlen m (by omega)]
      simp

theorem coerceLoop_valid (n : Nat) :
    ∀ s : GoString, validLoop n s = true → coerceLoop n s = s := by
  induction n with
  | zero =>
    intro s h
    rcases s with _ | ⟨b, t⟩
    · rfl
    · simp [validLoop] at h
  | succ n ih =>
    intro s h
    rcases s with _ | ⟨b, t⟩
    · rfl
    · rw [validLoop] at h
      rw [coerceLoop]
      by_cases hinv : (DecodeRuneInString (b :: t)).1 = RuneError ∧
          (DecodeRuneInString (b :: t)).2 = 1
      · simp [hinv] at h
      · simp only [hinv, if_false] at h ⊢
        rw [ih _ h, List.take_append_drop]

/-- A valid UTF-8 string is its own coercion. -/
theorem coerceUTF8_valid (s : GoString) (h : ValidString s = true) : coerceUTF8 s = s :=
  coerceLoop_valid s.length s h

theorem validLoop_ascii (n : Nat) :
    ∀ s : GoString, s.length ≤ n → (∀ x ∈ s, x < 0x80) → validLoop n s = true := by
  induction n with
  | zero =>
    intro s hs _
    have : s = [] := List.length_eq_zero.mp (by omega)
    subst this; rfl
  | succ n ih =>
    intro s hs h
    rcases s with _ | ⟨b, t⟩
    · rfl
    · have hb : b < 0x80 := h b (by simp)
      have hne : ¬ b = RuneError := by unfold RuneError; omega
      rw [validLoop, decode_ascii b t hb]
      simp only [hne, false_and, if_false, List.drop_succ_cons, List.drop_zero]
      exact ih t (by simpa using hs) (fun x hx => h x (by simp [hx]))

/-- An ASCII string is valid UTF-8. -/
theorem validString_ascii (s : GoString) (h : ∀ x ∈ s, x < 0x80) : ValidString s = true :=
  validLoop_ascii s.length s (le_refl _) h

/-- The scanner passes over bytes that are neither quotes, backslashes nor
control characters. -/
theorem scanString_plain (pre x : GoString) (h : ∀ c ∈ pre, 32 ≤ c ∧ c ≠ 34 ∧ c ≠ 92) :
    scanString .inString (pre ++ x) =
      (scanString .inString x).map (fun p => (pre ++ p.1, p.2)) := by
  induction pre with
  | nil => simp
  | cons c pre ih =>
    have hc := h c (by simp)
    have e1 : ¬ c = 34 := hc.2.1
    have e2 : ¬ c = 92 := hc.2.2
    have e3 : ¬ c < 32 := by omega
    rw [List.cons_append, scanString]
    simp only [e1, e2, e3, if_false]
    rw [ih (fun d hd => h d (by simp [hd]))]
    simp [Option.map_map, Function.comp_def]

/-- The scanner passes over a two-byte escape. -/
theorem scanString_esc (e : Nat) (x : GoString)
    (he : e = 98 ∨ e = 102 ∨ e = 110 ∨ e = 114 ∨ e = 116 ∨ e = 92 ∨ e = 47 ∨ e = 34) :
    scanString .inString (92 :: e :: x) =
      (scanString .inString x).map (fun p => (92 :: e :: p.1, p.2)) := by
  rw [scanString]
  simp only [show ¬ (92 : Nat) = 34 by decide, if_false, if_true]
  rw [scanString]
  simp only [he, if_true]
  simp [Option.map_map, Function.comp_def]

/-- The scanner passes over an escape `\uXXXX`. -/
theorem scanString_escU (a b c d : Nat) (x : GoString) (ha : (hexVal a).isSome)
    (hb : (hexVal b).isSome) (hc : (hexVal c).isSome) (hd : (hexVal d).isSome) :
    scanString .inString (92 :: 117 :: a :: b :: c :: d :: x) =
      (scanString .inString x).map (fun p => (92 :: 117 :: a :: b :: c :: d :: p.1, p.2)) := by
  rw [scanString]
  simp only [show ¬ (92 : Nat) = 34 by decide, if_false, if_true]
  rw [scanString]
  simp only [show ¬ ((117 : Nat) = 98 ∨ (117 : Nat) = 102 ∨ (117 : Nat) = 110 ∨ (117 : Nat) = 114 ∨
    (117 : Nat) = 116 ∨ (117 : Nat) = 92 ∨ (117 : Nat) = 47 ∨ (117 : Nat) = 34) by decide,
    if_false, if_true]
  rw [scanString]
  simp only [ha, if_true, show (0 : Nat) < 3 by decide]
  rw [scanString]
  simp only [hb, if_true, show (0 : Nat) + 1 < 3 by decide]
  rw [scanString]
  simp only [hc, if_true, show (0 : Nat) + 1 + 1 < 3 by decide]
  rw [scanString]
  simp only [hd, if_true, show ¬ (0 : Nat) + 1 + 1 + 1 < 3 by decide, if_false]
  simp [Option.map_map, Function.comp_def]

theorem hexVal_hex_isSome (i : Nat) (h : i < 16) : (hexVal (hex i)).isSome = true := by
  rw [hexVal_hex i h]; rfl

/-- The scanner passes over what one iteration of the encoder writes. -/
theorem scanString_stringStep (b : Nat) (t x : GoString) :
    scanString .inString ((stringStep b t).1 ++ x) =
      (scanString .inString x).map (fun p => ((stringStep b t).1 ++ p.1, p.2)) := by
  unfold stringStep
  by_cases hb : b < 0x80
  · simp only [hb, if_true]
    by_cases h1 : htmlSafeSet b
    · simp only [h1, if_true]
      apply scanString_plain
      simp [htmlSafeSet] at h1
      intro c hc
      simp at hc
      omega
    simp only [h1, if_false, Bool.false_eq_true]
    by_cases h2 : b = 92 ∨ b = 34
    · simp only [h2, if_true]
      exact scanString_esc b x (by omega)
    simp only [h2, if_false]
    by_cases h3 : b = 10
    · simp only [h3, if_true]; exact scanString_esc 110 x (by decide)
    simp only [h3, if_false]
    by_cases h4 : b = 13
    · simp only [h4, if_true]; exact scanString_esc 114 x (by decide)
    simp only [h4, if_false]
    by_cases h5 : b = 9
    · simp only [h5, if_true]; exact scanString_esc 116 x (by decide)
    simp only [h5, if_false, lit_u00]
    exact scanString_escU 48 48 _ _ x (by decide) (by decide)
      (hexVal_hex_isSome _ (by omega)) (hexVal_hex_isSome _ (by omega))
  · simp only [hb, if_false]
    by_cases hinv : (DecodeRuneInString (b :: t)).1 = RuneError ∧
        (DecodeRuneInString (b :: t)).2 = 1
    · simp only [hinv, and_self, if_true, lit_ufffd]
      exact scanString_escU 102 102 102 100 x (by decide) (by decide) (by decide) (by decide)
    obtain ⟨hk2, hklen, henc, hge, hdec⟩ := decode_multibyte b t (by omega) hinv
    simp only [hinv, if_false]
    by_cases hls : (DecodeRuneInString (b :: t)).1 = 0x2028 ∨
        (DecodeRuneInString (b :: t)).1 = 0x2029
    · simp only [hls, if_true, lit_u202]
      exact scanString_escU 50 48 50 _ x (by decide) (by decide) (by decide)
        (hexVal_hex_isSome _ (by omega))
    · simp only [hls, if_false]
      apply scanString_plain
      intro c hc
      have := hge c hc
      omega

/-- The scanner finds the end of the text that the encoder writes. -/
theorem scanString_stringLoop (n : Nat) :
    ∀ s rest : GoString,
      scanString .inString (stringLoop n s ++ 34 :: rest) = some (stringLoop n s, rest) := by
  induction n with
  | zero =>
    intro s rest
    rcases s with _ | ⟨b, t⟩ <;> simp [stringLoop, scanString]
  | succ n ih =>
    intro s rest
    rcases s with _ | ⟨b, t⟩
    · simp [stringLoop, scanString]
    · rw [stringLoop, List.append_assoc, scanString_stringStep, ih]
      simp

/-- Unquoting the JSON string that the encoder writes for `s` yields `s`
coerced to valid UTF-8. -/
theorem unquote_stringLoop (s : GoString) :
    unquote (stringLoop s.length s) = some (coerceUTF8 s) :=
  unquoteLoop_stringLoop s.length s (le_refl _) _ (le_refl _)

theorem lit_open : lit "\x7b\n  \"speech\": " = [123, 10, 32, 32, 34] ++ lit "speech" ++ [34, 58, 32] := by
  decide

theorem lit_middle :
    lit ",\n  \"displayText\": " = [44, 10, 32, 32, 34] ++ lit "displayText" ++ [34, 58, 32] := by
  decide

theorem lit_close : lit "\n\x7d" = [10, 125] := by decide

/-- The text that `MarshalIndent` writes for a `Response`, byte by byte
around the two string values. -/
theorem marshalIndent_text (s d : GoString) :
    (MarshalIndent (some { Speech := s, DisplayText := d })).1 =
      123 :: 10 :: 32 :: 32 :: 34 :: (lit "speech" ++ 34 :: 58 :: 32 :: 34 ::
        (stringLoop s.length s ++ 34 :: 44 :: 10 :: 32 :: 32 :: 34 ::
          (lit "displayText" ++ 34 :: 58 :: 32 :: 34 ::
            (stringLoop d.length d ++ [34, 10, 125])))) := by
  simp only [MarshalIndent, encodeString, lit_open, lit_middle, lit_close]
  simp

theorem scanString_key (key rest : GoString) (h : ∀ c ∈ key, 32 ≤ c ∧ c ≠ 34 ∧ c ≠ 92) :
    scanString .inString (key ++ 34 :: rest) = some (key, rest) := by
  rw [scanString_plain key _ h, scanString]
  simp

/-- The parser reads the text that `MarshalIndent` writes for a `Response`
as an object of two string members. -/
theorem parseText_marshalIndent (s d : GoString) :
    parseText (MarshalIndent (some { Speech := s, DisplayText := d })).1 =
      some (.object (.cons (lit "speech") (.string (stringLoop s.length s))
        (.cons (lit "displayText") (.string (stringLoop d.length d)) .nil))) := by
  rw [marshalIndent_text]
  unfold parseText parseFuel
  generalize hf : 2 * (123 :: 10 :: 32 :: 32 :: 34 :: (lit "speech" ++ 34 :: 58 :: 32 :: 34 ::
        (stringLoop s.length s ++ 34 :: 44 :: 10 :: 32 :: 32 :: 34 ::
          (lit "displayText" ++ 34 :: 58 :: 32 :: 34 ::
            (stringLoop d.length d ++ [34, 10, 125]))))).length + 2 = fuel
  obtain ⟨f, rfl⟩ : ∃ f, fuel = f + 5 := ⟨fuel - 5, by simp at hf; omega⟩
  have hk1 : ∀ c ∈ lit "speech", 32 ≤ c ∧ c ≠ 34 ∧ c ≠ 92 := by decide
  have hk2 : ∀ c ∈ lit "displayText", 32 ≤ c ∧ c ≠ 34 ∧ c ≠ 92 := by decide
  simp [parseValue, parseMembers, skipSpace, isSpace, scanString_key _ _ hk1,
    scanString_key _ _ hk2, scanString_stringLoop]

/-- Decoding the text that `MarshalIndent` writes for a `Response` yields
the two strings coerced to valid UTF-8. -/
theorem unmarshal_marshalIndent (s d : GoString) :
    unmarshalResponse (MarshalIndent (some { Speech := s, DisplayText := d })).1 =
      some { Speech := coerceUTF8 s, DisplayText := coerceUTF8 d } := by
  have e1 : unquote (lit "speech") = some (lit "speech") := by decide
  have e2 : unquote (lit "displayText") = some (lit "displayText") := by decide
  have f1 : fieldIs "speech" (lit "speech") = true := by decide
  have f2 : fieldIs "speech" (lit "displayText") = false := by decide
  have f3 : fieldIs "displayText" (lit "displayText") = true := by decide
  simp [unmarshalResponse, parseText_marshalIndent, storeStruct, JSONMembers.foldM, e1, e2,
    Response.setField, f1, f2, f3, storeString, unquote_stringLoop]

/-! ## Lemmas: the response writer and the registry -/

theorem httpError_status (w : ResponseWriter) (e : GoString) (code : Nat)
    (hw : w.status = none) : (httpError w e code).status = some code := by
  simp [httpError, ResponseWriter.Write, ResponseWriter.WriteHeader,
    ResponseWriter.SetHeader, hw]

theorem httpError_body (w : ResponseWriter) (e : GoString) (code : Nat)
    (hw : w.status = none) : (httpError w e code).body = w.body ++ e ++ [10] := by
  simp [httpError, ResponseWriter.Write, ResponseWriter.WriteHeader,
    ResponseWriter.SetHeader, hw]

theorem write_status (w : ResponseWriter) (b : GoString) (hw : w.status = none) :
    (w.Write b).status = some 200 := by
  simp [ResponseWriter.Write, ResponseWriter.WriteHeader, hw]

theorem write_body (w : ResponseWriter) (b : GoString) (hw : w.status = none) :
    (w.Write b).body = w.body ++ b := by
  simp [ResponseWriter.Write, ResponseWriter.WriteHeader, hw]

theorem registerAll_cons (h : Handler) (p : GoString × IntentHandler)
    (regs : List (GoString × IntentHandler)) :
    registerAll h (p :: regs) = registerAll (h.Register p.1 p.2) regs := rfl

/-- Registrations under other names leave the lookup of `n` as it was. -/
theorem registerAll_frame (regs : List (GoString × IntentHandler)) :
    ∀ (h : Handler) (n : GoString), n ∉ regs.map Prod.fst →
      (registerAll h regs).handlers n = h.handlers n := by
  induction regs with
  | nil => intro h n _; rfl
  | cons p regs ih =>
    intro h n hn
    simp only [List.map_cons, List.mem_cons, not_or] at hn
    rw [registerAll_cons, ih _ n hn.2]
    simp [Handler.Register, hn.1]

/-- After registrations under distinct names, each name finds its handler. -/
theorem registerAll_lookup (regs : List (GoString × IntentHandler)) :
    ∀ (h : Handler), (regs.map Prod.fst).Nodup →
      ∀ p ∈ regs, (registerAll h regs).handlers p.1 = some p.2 := by
  induction regs with
  | nil => intro h _ p hp; simp at hp
  | cons q regs ih =>
    intro h hnd p hp
    simp only [List.map_cons, List.nodup_cons] at hnd
    rw [registerAll_cons]
    rcases List.mem_cons.mp hp with rfl | hp
    · rw [registerAll_frame regs _ _ hnd.1]
      simp [Handler.Register]
    · exact ih _ hnd.2 p hp

/-! ## The claims -/

/-- C1: for every registry state, every intent name `n` and all handlers `f`
and `g`, after `Register(n, f)` the lookup `h.handlers[n]` that the router
performs reports presence and returns `f`, and after a further
`Register(n, g)` it reports presence and returns `g`: the last registration
for a name wins. -/
theorem register_last_wins (h : Handler) (n : GoString) (f g : IntentHandler) :
    (h.Register n f).handlers n = some f ∧
    ((h.Register n f).Register n g).handlers n = some g := by
  simp [Handler.Register]

/-- What `ServeHTTP` does once the body is decoded and the intent has a
handler: one call, then the reply that the result of the call selects. -/
theorem serveHTTP_routed (rt : Runtime) (h : Handler) (w : ResponseWriter) (r : HttpRequest)
    (req : Request) (handler : IntentHandler) (hdec : Decode rt r.Body = .ok req)
    (hreg : h.handlers req.Result.Metadata.IntentName = some handler) :
    h.ServeHTTP rt w r =
      { w :=
          match handler (Context.WithValue r.Context httpRequestKey (.request r)) req with
          | (_, some err) =>
            httpError w (lit "error processing intent:" ++ err) StatusInternalServerError
          | (res, none) => w.Write (MarshalIndent res).1,
        calls :=
          [{ intent := req.Result.Metadata.IntentName,
             ctx := Context.WithValue r.Context httpRequestKey (.request r),
             req := req }] } := by
  simp only [Handler.ServeHTTP, hdec, hreg]
  rcases hres : handler (Context.WithValue r.Context httpRequestKey (.request r)) req with
    ⟨res, _ | err⟩
  · rcases res with _ | res <;> simp [MarshalIndent]
  · simp

/-- C3: a name that was never registered is absent from the registry, in
particular every name on a handler fresh from `NewHandler`; and for every
decoded envelope whose intent name is absent `ServeHTTP` responds with status
500, a message that ends with the missing intent name, and calls no
handler. -/
theorem unregistered_intent_500 (rt : Runtime) (h : Handler) (w : ResponseWriter)
    (r : HttpRequest) (req : Request) (regs : List (GoString × IntentHandler)) (n : GoString)
    (hn : n ∉ regs.map Prod.fst) (hw : w.status = none) (hdec : Decode rt r.Body = .ok req)
    (habs : h.handlers req.Result.Metadata.IntentName = none) :
    NewHandler.handlers n = none ∧
    (registerAll NewHandler regs).handlers n = none ∧
    (h.ServeHTTP rt w r).w.status = some 500 ∧
    (h.ServeHTTP rt w r).w.body =
      w.body ++ lit "could not find handler for " ++ req.Result.Metadata.IntentName ++ [10] ∧
    (h.ServeHTTP rt w r).calls = [] := by
  have hs : h.ServeHTTP rt w r =
      { w := httpError w (lit "could not find handler for " ++ req.Result.Metadata.IntentName)
          StatusInternalServerError,
        calls := [] } := by
    simp only [Handler.ServeHTTP, hdec, habs]
  rw [hs]
  exact ⟨rfl, by rw [registerAll_frame regs _ _ hn]; rfl, httpError_status _ _ _ hw,
    by simp [httpError_body _ _ _ hw], rfl⟩

/-- C3, witness: the example registry, asked for the intent `triple`. -/
theorem unregistered_intent_500_witness :
    lit "triple" ∉ [(lit "double", doubleHandler Runtime.sample)].map Prod.fst ∧
    (NewHandler.handlers (lit "triple") = none ∧
     (registerAll NewHandler [(lit "double", doubleHandler Runtime.sample)]).handlers
        (lit "triple") = none ∧
     ((mainHandler Runtime.sample).ServeHTTP Runtime.sample ResponseWriter.fresh
        (post (exampleBody "triple" "21"))).w.status = some 500 ∧
     ((mainHandler Runtime.sample).ServeHTTP Runtime.sample ResponseWriter.fresh
        (post (exampleBody "triple" "21"))).w.body =
          ResponseWriter.fresh.body ++ lit "could not find handler for " ++
            (exampleRequest "triple" "21").Result.Metadata.IntentName ++ [10] ∧
     ((mainHandler Runtime.sample).ServeHTTP Runtime.sample ResponseWriter.fresh
        (post (exampleBody "triple" "21"))).calls = []) :=
  ⟨by decide,
    unregistered_intent_500 Runtime.sample (mainHandler Runtime.sample) ResponseWriter.fresh
      (post (exampleBody "triple" "21")) (exampleRequest "triple" "21")
      [(lit "double", doubleHandler Runtime.sample)] (lit "triple") (by decide) rfl rfl rfl⟩

/-- C4: for every decoded envelope routed to a registered handler that
returns an error `e`, `ServeHTTP` responds with status 500, the body is
`error processing intent:` followed by the text of `e` and a newline, and the
body is not the JSON encoding of any `*Response`. -/
theorem handler_error_500 (rt : Runtime) (h : Handler) (w : ResponseWriter) (r : HttpRequest)
    (req : Request) (handler : IntentHandler) (res : Option Response) (e : GoString)
    (hw : w.status = none) (hdec : Decode rt r.Body = .ok req)
    (hreg : h.handlers req.Result.Metadata.IntentName = some handler)
    (herr : handler (Context.WithValue r.Context httpRequestKey (.request r)) req =
      (res, some e)) :
    (h.ServeHTTP rt w r).w.status = some 500 ∧
    (h.ServeHTTP rt w r).w.body = w.body ++ lit "error processing intent:" ++ e ++ [10] ∧
    ∀ x : Option Response, (h.ServeHTTP rt w r).w.body ≠ w.body ++ (MarshalIndent x).1 := by
  rw [serveHTTP_routed rt h w r req handler hdec hreg, herr]
  refine ⟨httpError_status _ _ _ hw, by simp [httpError_body _ _ _ hw], ?_⟩
  intro x hx
  simp only [httpError_body _ _ _ hw, List.append_assoc, List.append_cancel_left_eq] at hx
  have h1 : lit "error processing intent:" = 101 :: (lit "rror processing intent:") := by decide
  have h2 : lit "null" = 110 :: lit "ull" := by decide
  have h3 : lit "\x7b\n  \"speech\": " = 123 :: lit "\n  \"speech\": " := by decide
  rcases x with _ | x
  · simp [MarshalIndent, h1, h2] at hx
  · simp [MarshalIndent, h1, h3] at hx

/-- C4, witness: the envelope of the example, routed to a handler that
fails. -/
theorem handler_error_500_witness :
    ((NewHandler.Register (lit "double") failingHandler).ServeHTTP Runtime.sample
        ResponseWriter.fresh (post (exampleBody "double" "21"))).w.status = some 500 ∧
    ((NewHandler.Register (lit "double") failingHandler).ServeHTTP Runtime.sample
        ResponseWriter.fresh (post (exampleBody "double" "21"))).w.body =
      ResponseWriter.fresh.body ++ lit "error processing intent:" ++
        lit "backend unavailable" ++ [10] ∧
    ∀ x : Option Response,
      ((NewHandler.Register (lit "double") failingHandler).ServeHTTP Runtime.sample
        ResponseWriter.fresh (post (exampleBody "double" "21"))).w.body ≠
      ResponseWriter.fresh.body ++ (MarshalIndent x).1 :=
  handler_error_500 Runtime.sample (NewHandler.Register (lit "double") failingHandler)
    ResponseWriter.fresh (post (exampleBody "double" "21")) (exampleRequest "double" "21")
    failingHandler none (lit "backend unavailable") rfl rfl rfl rfl

/-- C5, counterexample: a handler that returns a nil `*Response` without
error gets status 200 and the body `null`, which is no JSON object; and a
handler whose `Response` holds the byte FF gets a body whose `speech` is
U+FFFD instead. -/
theorem success_body_counterexample :
    (silentHandler (Context.WithValue (post (exampleBody "double" "21")).Context httpRequestKey
        (.request (post (exampleBody "double" "21")))) (exampleRequest "double" "21")).2 = none ∧
    ((NewHandler.Register (lit "double") silentHandler).ServeHTTP Runtime.sample
        ResponseWriter.fresh (post (exampleBody "double" "21"))).w.status = some 200 ∧
    ((NewHandler.Register (lit "double") silentHandler).ServeHTTP Runtime.sample
        ResponseWriter.fresh (post (exampleBody "double" "21"))).w.body = lit "null" ∧
    unmarshalResponse
      ((NewHandler.Register (lit "double") rawHandler).ServeHTTP Runtime.sample
        ResponseWriter.fresh (post (exampleBody "double" "21"))).w.body =
      some { Speech := [0xEF, 0xBF, 0xBD], DisplayText := [] } := by
  set_option maxRecDepth 100000 in decide

/-- C5, amended: for every decoded envelope routed to a registered handler
that returns a `Response` that is not nil and no error, `ServeHTTP` responds
with status 200 and the body is the object with the members `speech` and
`displayText`, in that order, each on a line of its own indented by two
spaces; decoded, the body holds the two strings of the `Response` coerced to
valid UTF-8, which are the two strings themselves when they are valid
UTF-8. -/
theorem success_body (rt : Runtime) (h : Handler) (w : ResponseWriter) (r : HttpRequest)
    (req : Request) (handler : IntentHandler) (res : Response)
    (hw : w.status = none) (hdec : Decode rt r.Body = .ok req)
    (hreg : h.handlers req.Result.Metadata.IntentName = some handler)
    (hres : handler (Context.WithValue r.Context httpRequestKey (.request r)) req =
      (some res, none)) :
    (h.ServeHTTP rt w r).w.status = some 200 ∧
    (h.ServeHTTP rt w r).w.body =
      w.body ++ (lit "\x7b\n  \"speech\": " ++ encodeString res.Speech ++
        lit ",\n  \"displayText\": " ++ encodeString res.DisplayText ++ lit "\n\x7d") ∧
    unmarshalResponse
      (lit "\x7b\n  \"speech\": " ++ encodeString res.Speech ++
        lit ",\n  \"displayText\": " ++ encodeString res.DisplayText ++ lit "\n\x7d") =
      some { Speech := coerceUTF8 res.Speech, DisplayText := coerceUTF8 res.DisplayText } ∧
    (ValidString res.Speech = true → ValidString res.DisplayText = true →
      unmarshalResponse
        (lit "\x7b\n  \"speech\": " ++ encodeString res.Speech ++
          lit ",\n  \"displayText\": " ++ encodeString res.DisplayText ++ lit "\n\x7d") =
        some res) := by
  rw [serveHTTP_routed rt h w r req handler hdec hreg, hres]
  have hm := unmarshal_marshalIndent res.Speech res.DisplayText
  simp only [MarshalIndent] at hm
  refine ⟨write_status _ _ hw, ?_, hm, ?_⟩
  · simp [write_body _ _ hw, MarshalIndent]
  · intro h1 h2
    rw [hm, coerceUTF8_valid _ h1, coerceUTF8_valid _ h2]

/-- C5, witness: the envelope of the example, routed to the handler that
echoes `num`. -/
theorem success_body_witness :
    ((NewHandler.Register (lit "double") echoHandler).ServeHTTP Runtime.sample
        ResponseWriter.fresh (post (exampleBody "double" "21"))).w.status = some 200 ∧
    ((NewHandler.Register (lit "double") echoHandler).ServeHTTP Runtime.sample
        ResponseWriter.fresh (post (exampleBody "double" "21"))).w.body =
      lit "\x7b\n  \"speech\": \"21\",\n  \"displayText\": \"\"\n\x7d" :=
  ⟨(success_body Runtime.sample (NewHandler.Register (lit "double") echoHandler)
      ResponseWriter.fresh (post (exampleBody "double" "21")) (exampleRequest "double" "21")
      echoHandler { Speech := lit "21", DisplayText := [] } rfl rfl rfl rfl).1,
   (success_body Runtime.sample (NewHandler.Register (lit "double") echoHandler)
      ResponseWriter.fresh (post (exampleBody "double" "21")) (exampleRequest "double" "21")
      echoHandler { Speech := lit "21", DisplayText := [] } rfl rfl rfl rfl).2.1⟩

/-- C9: for every inbound request `r` that is routed to a handler, the reply
of `ServeHTTP` is the one that the result of the handler selects when the
handler is applied to the context of `r` with `httpRequestKey` bound to `r`
and to the decoded envelope: that context is what the handler receives (and
what the record of the call holds), and `HTTPRequest` applied to it returns
`r` itself; for every context whose value under `httpRequestKey` is not a
`*http.Request` that points to a request (such as `context.Background()`),
`HTTPRequest` returns nil. -/
theorem httpRequest_accessor (rt : Runtime) (h : Handler) (w : ResponseWriter)
    (r : HttpRequest) (req : Request) (handler : IntentHandler) (ctx : Context)
    (hdec : Decode rt r.Body = .ok req)
    (hreg : h.handlers req.Result.Metadata.IntentName = some handler)
    (hctx : ∀ q, ctx.Value httpRequestKey ≠ some (.request q)) :
    (h.ServeHTTP rt w r).w =
      (match handler (Context.WithValue r.Context httpRequestKey (.request r)) req with
       | (_, some err) =>
         httpError w (lit "error processing intent:" ++ err) StatusInternalServerError
       | (res, none) => w.Write (MarshalIndent res).1) ∧
    (h.ServeHTTP rt w r).calls.map (·.ctx) =
      [Context.WithValue r.Context httpRequestKey (.request r)] ∧
    (h.ServeHTTP rt w r).calls.map (fun c => HTTPRequest c.ctx) = [some r] ∧
    HTTPRequest (Context.WithValue r.Context httpRequestKey (.request r)) = some r ∧
    HTTPRequest ctx = none ∧
    HTTPRequest Context.background = none := by
  have hr : HTTPRequest (Context.WithValue r.Context httpRequestKey (.request r)) = some r := by
    simp [HTTPRequest, Context.WithValue, Context.Value]
  rw [serveHTTP_routed rt h w r req handler hdec hreg]
  refine ⟨rfl, rfl, by simp [hr], hr, ?_, rfl⟩
  unfold HTTPRequest
  rcases hv : ctx.Value httpRequestKey with _ | v
  · rfl
  · rcases v with q | _ | ⟨typ, repr⟩
    · exact absurd hv (hctx q)
    · rfl
    · rfl

/-- C9, witness: the request of the example, routed to a handler that asks
`HTTPRequest` for the request and answers with its body, and a context that
binds the key to a value of another type. -/
theorem httpRequest_accessor_witness :
    ((NewHandler.Register (lit "double") originHandler).ServeHTTP Runtime.sample
        ResponseWriter.fresh (post (exampleBody "double" "21"))).w =
      ResponseWriter.fresh.Write
        (MarshalIndent (some { Speech := exampleBody "double" "21", DisplayText := [] })).1 ∧
    ((NewHandler.Register (lit "double") originHandler).ServeHTTP Runtime.sample
        ResponseWriter.fresh (post (exampleBody "double" "21"))).calls.map
          (fun c => HTTPRequest c.ctx) = [some (post (exampleBody "double" "21"))] ∧
    HTTPRequest (.withCancel (.withValue .background httpRequestKey (.other "string" (lit "x"))))
      = none :=
  ⟨(httpRequest_accessor Runtime.sample (NewHandler.Register (lit "double") originHandler)
      ResponseWriter.fresh (post (exampleBody "double" "21")) (exampleRequest "double" "21")
      originHandler
      (.withCancel (.withValue .background httpRequestKey (.other "string" (lit "x"))))
      rfl rfl (by intro q hq; simp [Context.Value] at hq)).1,
   (httpRequest_accessor Runtime.sample (NewHandler.Register (lit "double") originHandler)
      ResponseWriter.fresh (post (exampleBody "double" "21")) (exampleRequest "double" "21")
      originHandler
      (.withCancel (.withValue .background httpRequestKey (.other "string" (lit "x"))))
      rfl rfl (by intro q hq; simp [Context.Value] at hq)).2.2.1,
   (httpRequest_accessor Runtime.sample (NewHandler.Register (lit "double") originHandler)
      ResponseWriter.fresh (post (exampleBody "double" "21")) (exampleRequest "double" "21")
      originHandler
      (.withCancel (.withValue .background httpRequestKey (.other "string" (lit "x"))))
      rfl rfl (by intro q hq; simp [Context.Value] at hq)).2.2.2.2.1⟩

/-- C10: for every registry state and all names `n` and `m` with `m`
different from `n`, `Register(n, f)` leaves the lookup of `m` unchanged; and
after the registrations of a list of pairs with distinct names, made in any
order, the lookup of each name succeeds and returns the handler registered
under that name. -/
theorem register_frame_no_lost_entries (h : Handler) (n m : GoString) (f : IntentHandler)
    (regs order : List (GoString × IntentHandler)) (hne : m ≠ n)
    (hnd : (regs.map Prod.fst).Nodup) (hperm : order.Perm regs) :
    (h.Register n f).handlers m = h.handlers m ∧
    ∀ p ∈ regs, (registerAll h order).handlers p.1 = some p.2 := by
  refine ⟨by simp [Handler.Register, hne], ?_⟩
  intro p hp
  have hnd2 : (order.map Prod.fst).Nodup := (hperm.map Prod.fst).nodup_iff.mpr hnd
  exact registerAll_lookup order h hnd2 p (hperm.mem_iff.mpr hp)

/-- C10, witness: three intents registered in another order than listed. -/
theorem register_frame_no_lost_entries_witness :
    lit "b" ≠ lit "a" ∧
    ((NewHandler.Register (lit "a") echoHandler).handlers (lit "b") =
        NewHandler.handlers (lit "b") ∧
     ∀ p ∈ [(lit "a", echoHandler), (lit "b", silentHandler), (lit "c", failingHandler)],
      (registerAll NewHandler
        [(lit "b", silentHandler), (lit "a", echoHandler), (lit "c", failingHandler)]).handlers
          p.1 = some p.2) :=
  ⟨by decide,
    register_frame_no_lost_entries NewHandler (lit "a") (lit "b") echoHandler
      [(lit "a", echoHandler), (lit "b", silentHandler), (lit "c", failingHandler)]
      [(lit "b", silentHandler), (lit "a", echoHandler), (lit "c", failingHandler)]
      (by decide) (by decide) (List.Perm.swap _ _ _)⟩

/-! ## Lemmas: strconv and fmt -/

theorem fmtDecimal_digits (fuel : Nat) :
    ∀ (u : Nat) (acc : GoString), (∀ x ∈ acc, 45 ≤ x ∧ x ≤ 57) →
      ∀ x ∈ fmtDecimal fuel u acc, 45 ≤ x ∧ x ≤ 57 := by
  induction fuel with
  | zero =>
    intro u acc hacc x hx
    simp only [fmtDecimal, List.mem_cons] at hx
    rcases hx with rfl | hx
    · omega
    · exact hacc x hx
  | succ fuel ih =>
    intro u acc hacc x hx
    rw [fmtDecimal] at hx
    split_ifs at hx with h10
    · refine ih _ _ ?_ x hx
      intro y hy
      rcases List.mem_cons.mp hy with rfl | hy
      · omega
      · exact hacc y hy
    · rcases List.mem_cons.mp hx with rfl | hx
      · omega
      · exact hacc x hx

/-- The text of `%d` consists of digits and at most a minus sign. -/
theorem formatInt_bytes (i : Int) : ∀ x ∈ formatInt i, 45 ≤ x ∧ x ≤ 57 := by
  intro x hx
  unfold formatInt at hx
  rcases List.mem_append.mp hx with hx | hx
  · split_ifs at hx
    · simp at hx; omega
    · simp at hx
  · exact fmtDecimal_digits _ _ [] (by simp) x hx

theorem stringStep_safe (b : Nat) (t : GoString) (h : htmlSafeSet b = true) :
    stringStep b t = ([b], 1) := by
  have hb : b < 0x80 := by simp [htmlSafeSet] at h; omega
  simp [stringStep, hb, h]

/-- The encoder copies a string of bytes that need no escape. -/
theorem stringLoop_safe (n : Nat) :
    ∀ s : GoString, s.length ≤ n → (∀ c ∈ s, htmlSafeSet c = true) → stringLoop n s = s := by
  induction n with
  | zero =>
    intro s hs _
    have : s = [] := List.length_eq_zero.mp (by omega)
    subst this; rfl
  | succ n ih =>
    intro s hs h
    rcases s with _ | ⟨b, t⟩
    · rfl
    · rw [stringLoop, stringStep_safe b t (h b (by simp))]
      simp only [List.drop_succ_cons, List.drop_zero, List.singleton_append]
      rw [ih t (by simpa using hs) (fun c hc => h c (by simp [hc]))]

theorem encodeString_safe (s : GoString) (h : ∀ c ∈ s, htmlSafeSet c = true) :
    encodeString s = [34] ++ s ++ [34] := by
  rw [encodeString, stringLoop_safe s.length s (le_refl _) h]

theorem wrapInt_small (i : Int) (h1 : -2 ^ 63 ≤ i) (h2 : i < 2 ^ 63) : wrapInt i = i := by
  unfold wrapInt intSize
  norm_num at h1 h2 ⊢
  omega

theorem mainHandler_double (rt : Runtime) :
    (mainHandler rt).handlers (lit "double") = some (doubleHandler rt) := by
  simp [mainHandler, Handler.Register]

/-- The text that the example answers with for the number `n`. -/
theorem speech_safe (n m : Int) :
    ∀ c ∈ formatInt n ++ lit " times two equals " ++ formatInt m, htmlSafeSet c = true := by
  intro c hc
  simp only [List.mem_append] at hc
  rcases hc with (hc | hc) | hc
  · have := formatInt_bytes n c hc
    simp [htmlSafeSet]; omega
  · revert c; decide
  · have := formatInt_bytes m c hc
    simp [htmlSafeSet]; omega

/-- C6, counterexample: for `num` = 4611686018427387904, which `Atoi` reads
as that integer, the product `2*num` overflows the type `int` and the
answer says `-9223372036854775808` where the claim promises
`9223372036854775808`. -/
theorem double_overflow_counterexample :
    Atoi Runtime.sample ((exampleRequest "double" "4611686018427387904").Param (lit "num")) =
      .ok 4611686018427387904 ∧
    ((mainHandler Runtime.sample).ServeHTTP Runtime.sample ResponseWriter.fresh
      (post (exampleBody "double" "4611686018427387904"))).w.status = some 200 ∧
    unmarshalResponse
      ((mainHandler Runtime.sample).ServeHTTP Runtime.sample ResponseWriter.fresh
        (post (exampleBody "double" "4611686018427387904"))).w.body =
      some { Speech := lit "4611686018427387904 times two equals -9223372036854775808",
             DisplayText := [] } ∧
    lit "4611686018427387904 times two equals -9223372036854775808" ≠
      doubleSpeech 4611686018427387904 := by
  set_option maxRecDepth 100000 in decide

/-- C6, amended: with the intent `double` registered to `doubleHandler`, for
every decoded envelope whose intent name is `double` and whose parameter
`num` is read by `Atoi` as an integer `n` with -2^62 ≤ n < 2^62 (so that `2n`
fits the type `int`), the response has status 200 and its body is the
indented object whose `speech` is `<n> times two equals <2n>` and whose
`displayText` is empty. -/
theorem double_answer (rt : Runtime) (w : ResponseWriter) (r : HttpRequest) (req : Request)
    (n : Int) (hw : w.status = none) (hdec : Decode rt r.Body = .ok req)
    (hint : req.Result.Metadata.IntentName = lit "double")
    (hnum : Atoi rt (req.Param (lit "num")) = .ok n)
    (hlo : -2 ^ 62 ≤ n) (hhi : n < 2 ^ 62) :
    ((mainHandler rt).ServeHTTP rt w r).w.status = some 200 ∧
    ((mainHandler rt).ServeHTTP rt w r).w.body =
      w.body ++ (lit "\x7b\n  \"speech\": \"" ++ doubleSpeech n ++
        lit "\",\n  \"displayText\": \"\"\n\x7d") ∧
    unmarshalResponse
      (lit "\x7b\n  \"speech\": \"" ++ doubleSpeech n ++
        lit "\",\n  \"displayText\": \"\"\n\x7d") =
      some { Speech := doubleSpeech n, DisplayText := [] } := by
  have hreg : (mainHandler rt).handlers req.Result.Metadata.IntentName =
      some (doubleHandler rt) := by rw [hint]; exact mainHandler_double rt
  have hwrap : wrapInt (2 * n) = 2 * n := wrapInt_small _ (by omega) (by omega)
  have hres : doubleHandler rt (Context.WithValue r.Context httpRequestKey (.request r)) req =
      (some { Speech := doubleSpeech n, DisplayText := [] }, none) := by
    simp only [doubleHandler, hnum, hwrap, doubleSpeech]
  have hsafe : ∀ c ∈ doubleSpeech n, htmlSafeSet c = true := speech_safe n (2 * n)
  have htext : (MarshalIndent (some { Speech := doubleSpeech n, DisplayText := [] })).1 =
      lit "\x7b\n  \"speech\": \"" ++ doubleSpeech n ++
        lit "\",\n  \"displayText\": \"\"\n\x7d" := by
    have e1 : lit "\x7b\n  \"speech\": \"" = lit "\x7b\n  \"speech\": " ++ [34] := by decide
    have e2 : lit "\",\n  \"displayText\": \"\"\n\x7d" =
        [34] ++ lit ",\n  \"displayText\": " ++ encodeString [] ++ lit "\n\x7d" := by decide
    simp only [MarshalIndent, encodeString_safe _ hsafe, e1, e2, List.append_assoc]
  have hm := unmarshal_marshalIndent (doubleSpeech n) []
  rw [htext] at hm
  rw [serveHTTP_routed rt (mainHandler rt) w r req (doubleHandler rt) hdec hreg, hres]
  refine ⟨write_status _ _ hw, ?_, ?_⟩
  · simp only [write_body _ _ hw, htext]
  · rw [hm, coerceUTF8_valid _ (validString_ascii _ (fun x hx => by
      have := hsafe x hx; simp [htmlSafeSet] at this; omega))]
    rfl

/-- C6, witness: the exchange of the specification, `num` = 21. -/
theorem double_answer_witness :
    Atoi Runtime.sample ((exampleRequest "double" "21").Param (lit "num")) = .ok 21 ∧
    ((mainHandler Runtime.sample).ServeHTTP Runtime.sample ResponseWriter.fresh
      (post (exampleBody "double" "21"))).w.status = some 200 ∧
    ((mainHandler Runtime.sample).ServeHTTP Runtime.sample ResponseWriter.fresh
      (post (exampleBody "double" "21"))).w.body =
      lit "\x7b\n  \"speech\": \"21 times two equals 42\",\n  \"displayText\": \"\"\n\x7d" ∧
    unmarshalResponse
      (lit "\x7b\n  \"speech\": \"21 times two equals 42\",\n  \"displayText\": \"\"\n\x7d") =
      some { Speech := lit "21 times two equals 42", DisplayText := [] } :=
  ⟨by decide,
    double_answer Runtime.sample ResponseWriter.fresh (post (exampleBody "double" "21"))
      (exampleRequest "double" "21") 21 rfl rfl rfl (by decide) (by decide) (by decide)⟩

theorem quoteStep_plain (rt : Runtime) (b : Nat) (t : GoString)
    (h : 0x20 ≤ b ∧ b < 0x7F ∧ b ≠ 34 ∧ b ≠ 92) : quoteStep rt b t = ([b], 1) := by
  have e1 : ¬ 0x80 ≤ b := by omega
  have e2 : ¬ b = RuneError := by unfold RuneError; omega
  have e3 : ¬ (b = 34 ∨ b = 92) := by omega
  have e4 : IsPrint rt b = true := by
    unfold IsPrint
    rw [if_pos (by omega)]
    simp; omega
  have e5 : EncodeRune b = [b] := by simp [EncodeRune]; omega
  simp [quoteStep, e1, e2, appendEscapedRune, e3, e4, e5]

/-- The function `strconv.Quote` copies printable ASCII. -/
theorem quoteLoop_plain (rt : Runtime) (n : Nat) :
    ∀ s : GoString, s.length ≤ n → plainASCII s → quoteLoop rt n s = s := by
  induction n with
  | zero =>
    intro s hs _
    have : s = [] := List.length_eq_zero.mp (by omega)
    subst this; rfl
  | succ n ih =>
    intro s hs h
    rcases s with _ | ⟨b, t⟩
    · rfl
    · rw [quoteLoop, quoteStep_plain rt b t (h b (by simp))]
      simp only [List.drop_succ_cons, List.drop_zero, List.singleton_append]
      rw [ih t (by simpa using hs) (fun c hc => h c (by simp [hc]))]

theorem quote_plain (rt : Runtime) (s : GoString) (h : plainASCII s) :
    Quote rt s = [34] ++ s ++ [34] := by
  rw [Quote, quoteLoop_plain rt s.length s (le_refl _) h]

/-- C7: with the intent `double` registered to `doubleHandler`, for every
decoded envelope whose intent name is `double` and whose parameter `num`
`Atoi` rejects, the response has status 500 and its message carries the
rejected value of `num` as `strconv.Quote` writes it, after the words
`strconv.Atoi: parsing`; a value of printable ASCII without quotes and
backslashes appears as it is, between double quotes. -/
theorem double_parse_error (rt : Runtime) (w : ResponseWriter) (r : HttpRequest)
    (req : Request) (e : GoString) (hw : w.status = none) (hdec : Decode rt r.Body = .ok req)
    (hint : req.Result.Metadata.IntentName = lit "double")
    (herr : Atoi rt (req.Param (lit "num")) = .error e) :
    ((mainHandler rt).ServeHTTP rt w r).w.status = some 500 ∧
    (∃ ne : NumErr,
      ((mainHandler rt).ServeHTTP rt w r).w.body =
        w.body ++ lit "error processing intent:could not parse number " ++
          Quote rt (req.Param (lit "number")) ++ lit ": strconv.Atoi: parsing " ++
          Quote rt (req.Param (lit "num")) ++ lit ": " ++ ne.text ++ [10]) ∧
    (plainASCII (req.Param (lit "num")) →
      ∃ pre post, ((mainHandler rt).ServeHTTP rt w r).w.body =
        pre ++ ([34] ++ req.Param (lit "num") ++ [34]) ++ post) := by
  have hreg : (mainHandler rt).handlers req.Result.Metadata.IntentName =
      some (doubleHandler rt) := by rw [hint]; exact mainHandler_double rt
  obtain ⟨ne, hne⟩ : ∃ ne : NumErr, e = numErrorText rt (req.Param (lit "num")) ne := by
    unfold Atoi at herr
    split at herr
    · exact ⟨_, (Except.error.inj herr).symm⟩
    · cases herr
  have hres : doubleHandler rt (Context.WithValue r.Context httpRequestKey (.request r)) req =
      (none, some (lit "could not parse number " ++ Quote rt (req.Param (lit "number")) ++
        lit ": " ++ e)) := by
    simp only [doubleHandler, herr]
  have hbody : ((mainHandler rt).ServeHTTP rt w r).w.body =
      w.body ++ lit "error processing intent:could not parse number " ++
        Quote rt (req.Param (lit "number")) ++ lit ": strconv.Atoi: parsing " ++
        Quote rt (req.Param (lit "num")) ++ lit ": " ++ ne.text ++ [10] := by
    have e1 : lit "error processing intent:could not parse number " =
        lit "error processing intent:" ++ lit "could not parse number " := by decide
    have e2 : lit ": strconv.Atoi: parsing " = lit ": " ++ lit "strconv.Atoi: parsing " := by
      decide
    rw [serveHTTP_routed rt (mainHandler rt) w r req (doubleHandler rt) hdec hreg, hres]
    simp only [httpError_body _ _ _ hw, hne, numErrorText, e1, e2, List.append_assoc]
  refine ⟨?_, ⟨ne, hbody⟩, ?_⟩
  · rw [serveHTTP_routed rt (mainHandler rt) w r req (doubleHandler rt) hdec hreg, hres]
    exact httpError_status _ _ _ hw
  · intro hp
    rw [hbody, quote_plain rt _ hp]
    exact ⟨w.body ++ lit "error processing intent:could not parse number " ++
      Quote rt (req.Param (lit "number")) ++ lit ": strconv.Atoi: parsing ",
      lit ": " ++ ne.text ++ [10], by simp only [List.append_assoc]⟩

/-- C7, witness: the exchange of the specification, `num` = abc. -/
theorem double_parse_error_witness :
    Atoi Runtime.sample ((exampleRequest "double" "abc").Param (lit "num")) =
      .error (lit "strconv.Atoi: parsing \"abc\": invalid syntax") ∧
    ((mainHandler Runtime.sample).ServeHTTP Runtime.sample ResponseWriter.fresh
      (post (exampleBody "double" "abc"))).w.status = some 500 ∧
    ((mainHandler Runtime.sample).ServeHTTP Runtime.sample ResponseWriter.fresh
      (post (exampleBody "double" "abc"))).w.body =
      lit ("error processing intent:could not parse number \"\": " ++
        "strconv.Atoi: parsing \"abc\": invalid syntax\n") :=
  ⟨by decide,
    (double_parse_error Runtime.sample ResponseWriter.fresh (post (exampleBody "double" "abc"))
      (exampleRequest "double" "abc") (lit "strconv.Atoi: parsing \"abc\": invalid syntax")
      rfl rfl rfl (by decide)).1,
    by set_option maxRecDepth 100000 in decide⟩

/-- C8, counterexample: the `Response` whose `speech` is the single byte FF,
which is not valid UTF-8, is encoded with `speech` set to the escape of
U+FFFD and decodes to the three bytes EF BF BD. -/
theorem roundtrip_counterexample :
    (MarshalIndent (some { Speech := [0xFF], DisplayText := [] })).1 =
      lit "\x7b\n  \"speech\": \"\\ufffd\",\n  \"displayText\": \"\"\n\x7d" ∧
    unmarshalResponse (MarshalIndent (some { Speech := [0xFF], DisplayText := [] })).1 =
      some { Speech := [0xEF, 0xBF, 0xBD], DisplayText := [] } ∧
    unmarshalResponse (MarshalIndent (some { Speech := [0xFF], DisplayText := [] })).1 ≠
      some { Speech := [0xFF], DisplayText := [] } := by
  set_option maxRecDepth 100000 in decide

/-- C8, amended: for every pair of strings that are valid UTF-8, encoding the
`Response` that holds them as the router does, with `MarshalIndent`, and
decoding the resulting text as JSON yields exactly the two strings. -/
theorem roundtrip_valid_utf8 (speech displayText : GoString)
    (hs : ValidString speech = true) (hd : ValidString displayText = true) :
    unmarshalResponse
      (MarshalIndent (some { Speech := speech, DisplayText := displayText })).1 =
      some { Speech := speech, DisplayText := displayText } := by
  rw [unmarshal_marshalIndent, coerceUTF8_valid _ hs, coerceUTF8_valid _ hd]

/-- C8, witness: a speech with a quote, a line break, an ampersand and the
two-byte letter C3 A9, and a display text with the line separator U+2028. -/
theorem roundtrip_valid_utf8_witness :
    ValidString [34, 10, 38, 0xC3, 0xA9] = true ∧ ValidString [0xE2, 0x80, 0xA8, 65] = true ∧
    unmarshalResponse
      (MarshalIndent (some { Speech := [34, 10, 38, 0xC3, 0xA9],
                             DisplayText := [0xE2, 0x80, 0xA8, 65] })).1 =
      some { Speech := [34, 10, 38, 0xC3, 0xA9], DisplayText := [0xE2, 0x80, 0xA8, 65] } :=
  ⟨by decide, by decide,
    roundtrip_valid_utf8 [34, 10, 38, 0xC3, 0xA9] [0xE2, 0x80, 0xA8, 65] (by decide)
      (by decide)⟩

/-! ## Lemmas: the numerals of `fmt` read back by `strconv` -/

theorem parseUintLoop_digit (a d : Nat) (t : GoString) (hd : d < 10)
    (h : a * 10 + d < 2 ^ 64) :
    parseUintLoop a ((48 + d) :: t) = parseUintLoop (a * 10 + d) t := by
  have e1 : 48 ≤ 48 + d ∧ 48 + d ≤ 57 := by omega
  have e2 : ¬ ((2 ^ 64 - 1) / 10 + 1 ≤ a) := by norm_num at h ⊢; omega
  have e3 : (a * 10 + (48 + d - 48)) % 2 ^ 64 = a * 10 + d := by
    rw [Nat.add_sub_cancel_left, Nat.mod_eq_of_lt h]
  have e4 : ¬ (a * 10 + d < a * 10 ∨ 2 ^ 64 - 1 < a * 10 + d) := by
    norm_num at h ⊢; omega
  rw [parseUintLoop]
  simp only [e1, and_self, if_true, e2, if_false, e3, e4]

/-- Reading the digits that `fmtDecimal` writes for `u` after the value `a`
continues from `a * 10 ^ k + u`, where `k` is the number of digits. -/
theorem parseUintLoop_fmtDecimal (fuel : Nat) :
    ∀ (u : Nat) (acc : GoString), u ≤ fuel →
      ∃ k, ∀ a, a * 10 ^ k + u < 2 ^ 64 →
        parseUintLoop a (fmtDecimal fuel u acc) = parseUintLoop (a * 10 ^ k + u) acc := by
  induction fuel with
  | zero =>
    intro u acc hu
    have : u = 0 := by omega
    subst this
    refine ⟨1, fun a ha => ?_⟩
    have := parseUintLoop_digit a 0 acc (by omega) (by simpa using ha)
    simpa [fmtDecimal] using this
  | succ fuel ih =>
    intro u acc hu
    rw [fmtDecimal]
    by_cases h10 : 10 ≤ u
    · simp only [h10, if_true]
      obtain ⟨k, hk⟩ := ih (u / 10) ((48 + (u - u / 10 * 10)) :: acc) (by omega)
      refine ⟨k + 1, fun a ha => ?_⟩
      have hsplit : a * 10 ^ (k + 1) + u = (a * 10 ^ k + u / 10) * 10 + (u - u / 10 * 10) := by
        rw [pow_succ]
        have : u = u / 10 * 10 + (u - u / 10 * 10) := by omega
        nlinarith [this]
      have hlt : a * 10 ^ k + u / 10 < 2 ^ 64 := by
        rw [hsplit] at ha
        omega
      rw [hk a hlt, parseUintLoop_digit _ _ _ (by omega) (by rw [← hsplit]; exact ha), hsplit]
    · simp only [h10, if_false]
      refine ⟨1, fun a ha => ?_⟩
      simpa using parseUintLoop_digit a u acc (by omega) (by simpa using ha)

theorem fmtDecimal_ne_nil (fuel u : Nat) (acc : GoString) : fmtDecimal fuel u acc ≠ [] := by
  induction fuel generalizing u acc with
  | zero => simp [fmtDecimal]
  | succ fuel ih =>
    rw [fmtDecimal]
    split_ifs
    · exact ih _ _
    · simp

theorem parseUint_fmtDecimal (u : Nat) (h : u < 2 ^ 64) :
    ParseUint (fmtDecimal u u []) = .ok u := by
  obtain ⟨k, hk⟩ := parseUintLoop_fmtDecimal u u [] (le_refl _)
  rw [ParseUint, if_neg (fmtDecimal_ne_nil _ _ _), hk 0 (by simpa using h)]
  simp [parseUintLoop]

theorem fmtDecimal_first (fuel : Nat) :
    ∀ (u : Nat) (acc : GoString), (∀ x ∈ acc, 48 ≤ x ∧ x ≤ 57) →
      ∀ x ∈ fmtDecimal fuel u acc, 48 ≤ x ∧ x ≤ 57 := by
  induction fuel with
  | zero =>
    intro u acc hacc x hx
    simp only [fmtDecimal, List.mem_cons] at hx
    rcases hx with rfl | hx
    · omega
    · exact hacc x hx
  | succ fuel ih =>
    intro u acc hacc x hx
    rw [fmtDecimal] at hx
    split_ifs at hx with h10
    · refine ih _ _ ?_ x hx
      intro y hy
      rcases List.mem_cons.mp hy with rfl | hy
      · omega
      · exact hacc y hy
    · rcases List.mem_cons.mp hx with rfl | hx
      · omega
      · exact hacc x hx

/-- The function `Atoi` reads the text of `%d` back as the number printed:
`formatInt n` is the decimal numeral of `n`. -/
theorem atoi_formatInt (rt : Runtime) (n : Int) (h1 : -2 ^ 63 ≤ n) (h2 : n < 2 ^ 63) :
    Atoi rt (formatInt n) = .ok n := by
  have hu : n.natAbs < 2 ^ 64 := by omega
  have hp := parseUint_fmtDecimal n.natAbs hu
  obtain ⟨d, ds, hds⟩ : ∃ d ds, fmtDecimal n.natAbs n.natAbs [] = d :: ds := by
    rcases hx : fmtDecimal n.natAbs n.natAbs [] with _ | ⟨d, ds⟩
    · exact absurd hx (fmtDecimal_ne_nil _ _ _)
    · exact ⟨d, ds, rfl⟩
  have hd : 48 ≤ d ∧ d ≤ 57 := fmtDecimal_first _ _ [] (by simp) d (by rw [hds]; simp)
  have hpi : ParseInt (formatInt n) 64 = .ok n := by
    unfold formatInt
    by_cases hneg : n < 0
    · have hc : ¬ (2 ^ (64 - 1) < n.natAbs) := by norm_num; omega
      have hc2 : ¬ (¬ True ∧ 2 ^ (64 - 1) ≤ n.natAbs) := by simp
      simp only [hneg, if_true, List.singleton_append, ParseInt, decide_True, or_true, hp,
        Bool.not_true, Bool.false_eq_true, false_and, if_false, true_and, hc, hc2]
      congr 1
      omega
    · have hc : ¬ (2 ^ (64 - 1) ≤ n.natAbs) := by norm_num; omega
      have e1 : ¬ d = 45 := by omega
      have e2 : ¬ (d = 43 ∨ False) := by
        intro h; rcases h with h | h
        · omega
        · exact h
      rw [hds] at hp
      simp only [hneg, if_false, List.nil_append, hds, ParseInt, e1, e2, decide_False, hp,
        Bool.not_false, true_and, hc, Bool.false_eq_true, false_and, not_false_eq_true]
      congr 1
      omega
  unfold Atoi intSize
  rw [hpi]

/-! ## Lemmas: the fuel of the loops suffices

Each loop is run with as much fuel as its input has bytes. An iteration
consumes at least one byte, so the branch for exhausted fuel is not reached:
the result is the same for any larger fuel. -/

theorem decode_width_pos (b : Nat) (t : GoString) : 1 ≤ (DecodeRuneInString (b :: t)).2 := by
  by_cases hb : b < 0x80
  · rw [decode_ascii b t hb]
  · rcases decode_cases b t (by omega) with he | ⟨_, _, _, _, _, _, _, he⟩ |
      ⟨_, _, _, _, _, _, _, _, _, _, he⟩ | ⟨_, _, _, _, _, _, _, _, _, _, _, _, _, he⟩ <;>
    rw [he] <;> simp

theorem stringLoop_fuel (n : Nat) :
    ∀ (s : GoString) (m : Nat), s.length ≤ n → s.length ≤ m →
      stringLoop n s = stringLoop m s := by
  induction n with
  | zero =>
    intro s m hs _
    have : s = [] := List.length_eq_zero.mp (by omega)
    subst this
    cases m <;> rfl
  | succ n ih =>
    intro s m hs hm
    rcases s with _ | ⟨b, t⟩
    · cases m <;> rfl
    · obtain ⟨m, rfl⟩ : ∃ k, m = k + 1 := ⟨m - 1, by simp at hm; omega⟩
      have h1 := (stringStep_consumed b t).1
      rw [stringLoop, stringLoop, ih _ m (by simp at hs ⊢; omega) (by simp at hm ⊢; omega)]

theorem coerceLoop_fuel (n : Nat) :
    ∀ (s : GoString) (m : Nat), s.length ≤ n → s.length ≤ m →
      coerceLoop n s = coerceLoop m s := by
  induction n with
  | zero =>
    intro s m hs _
    have : s = [] := List.length_eq_zero.mp (by omega)
    subst this
    cases m <;> rfl
  | succ n ih =>
    intro s m hs hm
    rcases s with _ | ⟨b, t⟩
    · cases m <;> rfl
    · obtain ⟨m, rfl⟩ : ∃ k, m = k + 1 := ⟨m - 1, by simp at hm; omega⟩
      have h1 := (stringStep_consumed b t).1
      rw [coerceLoop_cons, coerceLoop_cons,
        ih _ m (by simp at hs ⊢; omega) (by simp at hm ⊢; omega)]

theorem validLoop_fuel (n : Nat) :
    ∀ (s : GoString) (m : Nat), s.length ≤ n → s.length ≤ m →
      validLoop n s = validLoop m s := by
  induction n with
  | zero =>
    intro s m hs _
    have : s = [] := List.length_eq_zero.mp (by omega)
    subst this
    cases m <;> rfl
  | succ n ih =>
    intro s m hs hm
    rcases s with _ | ⟨b, t⟩
    · cases m <;> rfl
    · obtain ⟨m, rfl⟩ : ∃ k, m = k + 1 := ⟨m - 1, by simp at hm; omega⟩
      have h1 := decode_width_pos b t
      rw [validLoop, validLoop]
      split_ifs
      · rfl
      · exact ih _ m (by simp at hs ⊢; omega) (by simp at hm ⊢; omega)

theorem quoteStep_consumed (rt : Runtime) (b : Nat) (t : GoString) :
    1 ≤ (quoteStep rt b t).2 := by
  unfold quoteStep
  have h1 := decode_width_pos b t
  by_cases hb : 0x80 ≤ b
  · simp only [hb, if_true]
    split_ifs
    · simp
    · simpa using h1
  · simp only [hb, if_false]
    split_ifs <;> simp

theorem quoteLoop_fuel (rt : Runtime) (n : Nat) :
    ∀ (s : GoString) (m : Nat), s.length ≤ n → s.length ≤ m →
      quoteLoop rt n s = quoteLoop rt m s := by
  induction n with
  | zero =>
    intro s m hs _
    have : s = [] := List.length_eq_zero.mp (by omega)
    subst this
    cases m <;> rfl
  | succ n ih =>
    intro s m hs hm
    rcases s with _ | ⟨b, t⟩
    · cases m <;> rfl
    · obtain ⟨m, rfl⟩ : ∃ k, m = k + 1 := ⟨m - 1, by simp at hm; omega⟩
      have h1 := quoteStep_consumed rt b t
      rw [quoteLoop, quoteLoop, ih _ m (by simp at hs ⊢; omega) (by simp at hm ⊢; omega)]

theorem unquoteStep_consumed (c : Nat) (t : GoString) (p : GoString × Nat)
    (h : unquoteStep c t = some p) : 1 ≤ p.2 := by
  have h1 := decode_width_pos c t
  unfold unquoteStep at h
  by_cases hc : c = 92
  · simp only [hc, if_true] at h
    rcases t with _ | ⟨e, t1⟩
    · cases h
    · simp only [] at h
      by_cases g1 : e = 34 ∨ e = 92 ∨ e = 47 ∨ e = 39
      · rw [if_pos g1] at h; cases h; simp
      rw [if_neg g1] at h
      by_cases g2 : e = 98
      · rw [if_pos g2] at h; cases h; simp
      rw [if_neg g2] at h
      by_cases g3 : e = 102
      · rw [if_pos g3] at h; cases h; simp
      rw [if_neg g3] at h
      by_cases g4 : e = 110
      · rw [if_pos g4] at h; cases h; simp
      rw [if_neg g4] at h
      by_cases g5 : e = 114
      · rw [if_pos g5] at h; cases h; simp
      rw [if_neg g5] at h
      by_cases g6 : e = 116
      · rw [if_pos g6] at h; cases h; simp
      rw [if_neg g6] at h
      by_cases g7 : e = 117
      · rw [if_pos g7] at h
        rcases hg : getu4 (92 :: e :: t1) with _ | rr
        · rw [hg] at h; cases h
        · rw [hg] at h
          simp only [] at h
          split_ifs at h <;> (cases h; simp)
      · rw [if_neg g7] at h; cases h
  · rw [if_neg hc] at h
    split_ifs at h
    · cases h; simp
    · cases h; simpa using h1

theorem unquoteLoop_fuel (n : Nat) :
    ∀ (s : GoString) (m : Nat), s.length ≤ n → s.length ≤ m →
      unquoteLoop n s = unquoteLoop m s := by
  induction n with
  | zero =>
    intro s m hs _
    have : s = [] := List.length_eq_zero.mp (by omega)
    subst this
    cases m <;> rfl
  | succ n ih =>
    intro s m hs hm
    rcases s with _ | ⟨c, t⟩
    · cases m <;> rfl
    · obtain ⟨m, rfl⟩ : ∃ k, m = k + 1 := ⟨m - 1, by simp at hm; omega⟩
      rw [unquoteLoop, unquoteLoop]
      rcases hstep : unquoteStep c t with _ | p
      · rfl
      · have h1 := unquoteStep_consumed c t p hstep
        simp only []
        rw [ih _ m (by simp at hs ⊢; omega) (by simp at hm ⊢; omega)]

theorem skipSpace_length (s : GoString) : (skipSpace s).length ≤ s.length := by
  induction s with
  | nil => simp [skipSpace]
  | cons c t ih =>
    rw [skipSpace]
    by_cases h : isSpace c = true
    · rw [if_pos h]; simp; omega
    · rw [if_neg h]

theorem skipSpace_cons_length (s : GoString) (c : Nat) (t : GoString)
    (h : skipSpace s = c :: t) : t.length < s.length := by
  have := skipSpace_length s
  rw [h] at this
  simpa using this

theorem scanString_length (s : GoString) :
    ∀ (st : StringState) (p : GoString × GoString), scanString st s = some p →
      p.2.length < s.length := by
  induction s with
  | nil => intro st p h; cases st <;> simp [scanString] at h
  | cons c t ih =>
    intro st p h
    have key : ∀ (st1 : StringState),
        (scanString st1 t).map (fun q => (c :: q.1, q.2)) = some p →
          p.2.length < (c :: t).length := by
      intro st1 h1
      rcases hq : scanString st1 t with _ | q
      · rw [hq] at h1; simp at h1
      · rw [hq] at h1
        have := ih st1 q hq
        simp only [Option.map_some', Option.some.injEq] at h1
        rw [← h1]
        simp; omega
    cases st with
    | inString =>
      rw [scanString] at h
      by_cases h1 : c = 34
      · rw [if_pos h1] at h
        simp only [Option.some.injEq] at h
        rw [← h]; simp
      rw [if_neg h1] at h
      by_cases h2 : c = 92
      · rw [if_pos h2] at h; exact key _ h
      rw [if_neg h2] at h
      by_cases h3 : c < 32
      · rw [if_pos h3] at h; simp at h
      rw [if_neg h3] at h
      exact key _ h
    | inStringEsc =>
      rw [scanString] at h
      by_cases h1 : c = 98 ∨ c = 102 ∨ c = 110 ∨ c = 114 ∨ c = 116 ∨ c = 92 ∨ c = 47 ∨ c = 34
      · rw [if_pos h1] at h; exact key _ h
      rw [if_neg h1] at h
      by_cases h2 : c = 117
      · rw [if_pos h2] at h; exact key _ h
      rw [if_neg h2] at h
      simp at h
    | inStringEscU seen =>
      rw [scanString] at h
      by_cases h1 : (hexVal c).isSome = true
      · rw [if_pos h1] at h; exact key _ h
      rw [if_neg h1] at h
      simp at h

theorem scanNumberFrom_length (s : GoString) :
    ∀ (st : NumberState) (p : GoString × GoString), scanNumberFrom st s = some p →
      p.2.length ≤ s.length := by
  induction s with
  | nil =>
    intro st p h
    rw [scanNumberFrom] at h
    split_ifs at h
    simp only [Option.some.injEq] at h
    rw [← h]
  | cons c t ih =>
    intro st p h
    have key : ∀ (st1 : NumberState),
        (scanNumberFrom st1 t).map (fun q => (c :: q.1, q.2)) = some p →
          p.2.length ≤ (c :: t).length := by
      intro st1 h1
      rcases hq : scanNumberFrom st1 t with _ | q
      · rw [hq] at h1; simp at h1
      · rw [hq] at h1
        have := ih st1 q hq
        simp only [Option.map_some', Option.some.injEq] at h1
        rw [← h1]
        simp only [List.length_cons]; omega
    have stop : some (([] : GoString), c :: t) = some p → p.2.length ≤ (c :: t).length := by
      intro h1
      simp only [Option.some.injEq] at h1
      rw [← h1]
    cases st <;> rw [scanNumberFrom] at h <;> split_ifs at h <;>
      first | exact key _ h | exact stop h

theorem scanNumber_length (s : GoString) (p : GoString × GoString)
    (h : scanNumber s = some p) : p.2.length < s.length := by
  unfold scanNumber at h
  rcases s with _ | ⟨c, t⟩
  · simp at h
  · simp only [] at h
    by_cases h1 : c = 45
    · rw [if_pos h1] at h
      rcases hq : scanNumberFrom .neg t with _ | q
      · rw [hq] at h; simp at h
      · rw [hq] at h
        have := scanNumberFrom_length t _ q hq
        simp only [Option.map_some', Option.some.injEq] at h
        rw [← h]
        simp only [List.length_cons]; omega
    · rw [if_neg h1, scanNumberFrom] at h
      have key : ∀ (st1 : NumberState),
          (scanNumberFrom st1 t).map (fun q => (c :: q.1, q.2)) = some p →
            p.2.length < (c :: t).length := by
        intro st1 h2
        rcases hq : scanNumberFrom st1 t with _ | q
        · rw [hq] at h2; simp at h2
        · rw [hq] at h2
          have := scanNumberFrom_length t st1 q hq
          simp only [Option.map_some', Option.some.injEq] at h2
          rw [← h2]
          simp only [List.length_cons]; omega
      split_ifs at h <;> exact key _ h

theorem map_some_length {α β : Type} (o : Option (α × GoString)) (f : α → β)
    (r : β × GoString) (k : Nat)
    (h : o.map (fun p => (f p.1, p.2)) = some r) (ho : ∀ p, o = some p → p.2.length < k) :
    r.2.length < k := by
  rcases o with _ | p
  · simp at h
  · simp only [Option.map_some', Option.some.injEq] at h
    rw [← h]
    exact ho p rfl

/-- A successful parse consumes at least one byte. -/
theorem parse_consumes (n : Nat) :
    (∀ s r, parseValue n s = some r → r.2.length < s.length) ∧
    (∀ s r, parseMembers n s = some r → r.2.length < s.length) ∧
    (∀ s r, parseElements n s = some r → r.2.length < s.length) := by
  induction n with
  | zero => simp [parseValue, parseMembers, parseElements]
  | succ n ih =>
    obtain ⟨ihV, ihM, ihE⟩ := ih
    refine ⟨?_, ?_, ?_⟩
    · intro s r h
      rw [parseValue] at h
      rcases hs : skipSpace s with _ | ⟨c, t⟩
      · rw [hs] at h; simp at h
      rw [hs] at h
      simp only [] at h
      have hlen := skipSpace_cons_length s c t hs
      by_cases h1 : c = 123
      · rw [if_pos h1] at h
        rcases ht : skipSpace t with _ | ⟨c1, t1⟩
        · rw [ht] at h; simp at h
        rw [ht] at h
        simp only [] at h
        have hlen1 := skipSpace_cons_length t c1 t1 ht
        have hlen2 := skipSpace_length t
        rw [ht] at hlen2
        by_cases h2 : c1 = 125
        · rw [if_pos h2] at h
          simp only [Option.some.injEq] at h
          rw [← h]; simp only []; omega
        · rw [if_neg h2] at h
          refine map_some_length _ JSON.object r _ h (fun p hp => ?_)
          have := ihM _ p hp
          omega
      rw [if_neg h1] at h
      by_cases h3 : c = 91
      · rw [if_pos h3] at h
        rcases ht : skipSpace t with _ | ⟨c1, t1⟩
        · rw [ht] at h; simp at h
        rw [ht] at h
        simp only [] at h
        have hlen1 := skipSpace_cons_length t c1 t1 ht
        have hlen2 := skipSpace_length t
        rw [ht] at hlen2
        by_cases h2 : c1 = 93
        · rw [if_pos h2] at h
          simp only [Option.some.injEq] at h
          rw [← h]; simp only []; omega
        · rw [if_neg h2] at h
          refine map_some_length _ JSON.array r _ h (fun p hp => ?_)
          have := ihE _ p hp
          omega
      rw [if_neg h3] at h
      by_cases h4 : c = 34
      · rw [if_pos h4] at h
        refine map_some_length _ JSON.string r _ h (fun p hp => ?_)
        have := scanString_length _ _ p hp
        omega
      rw [if_neg h4] at h
      by_cases h5 : c = 45 ∨ isDigit c = true
      · rw [if_pos h5] at h
        refine map_some_length _ JSON.number r _ h (fun p hp => ?_)
        have := scanNumber_length _ p hp
        simp only [List.length_cons] at this
        omega
      rw [if_neg h5] at h
      by_cases h6 : (c :: t).take 4 = lit "true"
      · rw [if_pos h6] at h
        simp only [Option.some.injEq] at h
        rw [← h]; simp only [List.length_drop, List.length_cons]; omega
      rw [if_neg h6] at h
      by_cases h7 : (c :: t).take 5 = lit "false"
      · rw [if_pos h7] at h
        simp only [Option.some.injEq] at h
        rw [← h]; simp only [List.length_drop, List.length_cons]; omega
      rw [if_neg h7] at h
      by_cases h8 : (c :: t).take 4 = lit "null"
      · rw [if_pos h8] at h
        simp only [Option.some.injEq] at h
        rw [← h]; simp only [List.length_drop, List.length_cons]; omega
      rw [if_neg h8] at h
      simp at h
    · intro s r h
      rw [parseMembers] at h
      rcases hs : skipSpace s with _ | ⟨q, t⟩
      · rw [hs] at h; simp at h
      rw [hs] at h
      simp only [] at h
      have hlen := skipSpace_cons_length s q t hs
      by_cases h1 : q = 34
      · rw [if_pos h1] at h
        rcases hk : scanString .inString t with _ | k
        · rw [hk] at h; simp at h
        rw [hk] at h
        simp only [] at h
        have hklen := scanString_length _ _ k hk
        rcases hc : skipSpace k.2 with _ | ⟨colon, r1⟩
        · rw [hc] at h; simp at h
        rw [hc] at h
        simp only [] at h
        have hclen := skipSpace_cons_length k.2 colon r1 hc
        by_cases h2 : colon = 58
        · rw [if_pos h2] at h
          rcases hv : parseValue n r1 with _ | v
          · rw [hv] at h; simp at h
          rw [hv] at h
          simp only [] at h
          have hvlen := ihV _ v hv
          rcases hx : skipSpace v.2 with _ | ⟨c, r2⟩
          · rw [hx] at h; simp at h
          rw [hx] at h
          simp only [] at h
          have hxlen := skipSpace_cons_length v.2 c r2 hx
          by_cases h3 : c = 44
          · rw [if_pos h3] at h
            refine map_some_length _ (JSONMembers.cons k.1 v.1) r _ h (fun p hp => ?_)
            have := ihM _ p hp
            omega
          rw [if_neg h3] at h
          by_cases h4 : c = 125
          · rw [if_pos h4] at h
            simp only [Option.some.injEq] at h
            rw [← h]; simp only []; omega
          rw [if_neg h4] at h
          simp at h
        · rw [if_neg h2] at h; simp at h
      · rw [if_neg h1] at h; simp at h
    · intro s r h
      rw [parseElements] at h
      rcases hv : parseValue n s with _ | v
      · rw [hv] at h; simp at h
      rw [hv] at h
      simp only [] at h
      have hvlen := ihV _ v hv
      rcases hx : skipSpace v.2 with _ | ⟨c, r2⟩
      · rw [hx] at h; simp at h
      rw [hx] at h
      simp only [] at h
      have hxlen := skipSpace_cons_length v.2 c r2 hx
      by_cases h3 : c = 44
      · rw [if_pos h3] at h
        refine map_some_length _ (JSONList.cons v.1) r _ h (fun p hp => ?_)
        have := ihE _ p hp
        omega
      rw [if_neg h3] at h
      by_cases h4 : c = 93
      · rw [if_pos h4] at h
        simp only [Option.some.injEq] at h
        rw [← h]; simp only []; omega
      rw [if_neg h4] at h
      simp at h

/-- More fuel than `parseFuel` allots does not change the result of the
parser: the branch for exhausted fuel is not reached. -/
theorem parse_fuel (n : Nat) :
    (∀ s m, 2 * s.length + 1 ≤ n → n ≤ m → parseValue m s = parseValue n s) ∧
    (∀ s m, 2 * s.length + 2 ≤ n → n ≤ m → parseMembers m s = parseMembers n s) ∧
    (∀ s m, 2 * s.length + 2 ≤ n → n ≤ m → parseElements m s = parseElements n s) := by
  induction n with
  | zero =>
    refine ⟨?_, ?_, ?_⟩ <;> intro s m h _ <;> omega
  | succ n ih =>
    obtain ⟨ihV, ihM, ihE⟩ := ih
    obtain ⟨cV, cM, cE⟩ := parse_consumes n
    refine ⟨?_, ?_, ?_⟩
    · intro s m hn hm
      obtain ⟨m, rfl⟩ : ∃ k, m = k + 1 := ⟨m - 1, by omega⟩
      rw [parseValue, parseValue]
      rcases hs : skipSpace s with _ | ⟨c, t⟩
      · rfl
      simp only []
      have hlen := skipSpace_cons_length s c t hs
      by_cases h1 : c = 123
      · rw [if_pos h1, if_pos h1]
        rcases ht : skipSpace t with _ | ⟨c1, t1⟩
        · rfl
        simp only []
        have hlen2 := skipSpace_length t
        rw [ht] at hlen2
        simp only [List.length_cons] at hlen2
        by_cases h2 : c1 = 125
        · rw [if_pos h2, if_pos h2]
        · rw [if_neg h2, if_neg h2,
            ihM (c1 :: t1) m (by simp only [List.length_cons]; omega) (by omega)]
      rw [if_neg h1, if_neg h1]
      by_cases h3 : c = 91
      · rw [if_pos h3, if_pos h3]
        rcases ht : skipSpace t with _ | ⟨c1, t1⟩
        · rfl
        simp only []
        have hlen2 := skipSpace_length t
        rw [ht] at hlen2
        simp only [List.length_cons] at hlen2
        by_cases h2 : c1 = 93
        · rw [if_pos h2, if_pos h2]
        · rw [if_neg h2, if_neg h2,
            ihE (c1 :: t1) m (by simp only [List.length_cons]; omega) (by omega)]
      rw [if_neg h3, if_neg h3]
    · intro s m hn hm
      obtain ⟨m, rfl⟩ : ∃ k, m = k + 1 := ⟨m - 1, by omega⟩
      rw [parseMembers, parseMembers]
      rcases hs : skipSpace s with _ | ⟨q, t⟩
      · rfl
      simp only []
      have hlen := skipSpace_cons_length s q t hs
      by_cases h1 : q = 34
      · rw [if_pos h1, if_pos h1]
        rcases hk : scanString .inString t with _ | k
        · rfl
        simp only []
        have hklen := scanString_length _ _ k hk
        rcases hc : skipSpace k.2 with _ | ⟨colon, r1⟩
        · rfl
        simp only []
        have hclen := skipSpace_cons_length k.2 colon r1 hc
        by_cases h2 : colon = 58
        · rw [if_pos h2, if_pos h2, ihV r1 m (by omega) (by omega)]
          rcases hv : parseValue n r1 with _ | v
          · rfl
          simp only []
          have hvlen := cV _ v hv
          rcases hx : skipSpace v.2 with _ | ⟨c, r2⟩
          · rfl
          simp only []
          have hxlen := skipSpace_cons_length v.2 c r2 hx
          by_cases h3 : c = 44
          · rw [if_pos h3, if_pos h3, ihM r2 m (by omega) (by omega)]
          · rw [if_neg h3, if_neg h3]
        · rw [if_neg h2, if_neg h2]
      · rw [if_neg h1, if_neg h1]
    · intro s m hn hm
      obtain ⟨m, rfl⟩ : ∃ k, m = k + 1 := ⟨m - 1, by omega⟩
      rw [parseElements, parseElements, ihV s m (by omega) (by omega)]
      rcases hv : parseValue n s with _ | v
      · rfl
      simp only []
      have hvlen := cV _ v hv
      rcases hx : skipSpace v.2 with _ | ⟨c, r2⟩
      · rfl
      simp only []
      have hxlen := skipSpace_cons_length v.2 c r2 hx
      by_cases h3 : c = 44
      · rw [if_pos h3, if_pos h3, ihE r2 m (by omega) (by omega)]
      · rw [if_neg h3, if_neg h3]

/-- The parser reads a text with the fuel `parseFuel` as with any larger
fuel. -/
theorem parseValue_fuel (s : GoString) (m : Nat) (h : parseFuel s ≤ m) :
    parseValue m s = parseValue (parseFuel s) s :=
  (parse_fuel (parseFuel s)).1 s m (by unfold parseFuel; omega) h

/-! ## Lemmas: the parser reads no further than the value -/

theorem skipSpace_local (s : GoString) :
    ∀ (c : Nat) (t : GoString), skipSpace s = c :: t →
      ∃ ws, s = ws ++ c :: t ∧ ∀ z, skipSpace (ws ++ c :: z) = c :: z := by
  induction s with
  | nil => intro c t h; simp [skipSpace] at h
  | cons a s ih =>
    intro c t h
    rw [skipSpace] at h
    by_cases ha : isSpace a = true
    · rw [if_pos ha] at h
      obtain ⟨ws, hs, hz⟩ := ih c t h
      refine ⟨a :: ws, by rw [hs]; rfl, fun z => ?_⟩
      rw [List.cons_append, skipSpace, if_pos ha]
      exact hz z
    · rw [if_neg ha] at h
      obtain ⟨rfl, rfl⟩ := List.cons.inj h
      refine ⟨[], rfl, fun z => ?_⟩
      rw [List.nil_append, skipSpace, if_neg ha]

theorem endsNumber_of_skipSpace (y : GoString) (c : Nat) (t : GoString)
    (h : skipSpace y = c :: t) (hc : continuesNumber c = false) : endsNumber y = true := by
  rcases y with _ | ⟨a, y⟩
  · rfl
  · rw [skipSpace] at h
    by_cases ha : isSpace a = true
    · simp only [endsNumber, continuesNumber, isDigit, isSpace, decide_eq_true_eq] at ha ⊢
      simp
      omega
    · rw [if_neg ha] at h
      obtain ⟨rfl, rfl⟩ := List.cons.inj h
      simp [endsNumber, hc]

theorem scanString_local (s : GoString) :
    ∀ (st : StringState) (p : GoString × GoString), scanString st s = some p →
      ∃ pre, s = pre ++ p.2 ∧ ∀ z, scanString st (pre ++ z) = some (p.1, z) := by
  induction s with
  | nil => intro st p h; cases st <;> simp [scanString] at h
  | cons c t ih =>
    intro st p h
    have key : ∀ (st1 : StringState),
        (scanString st1 t).map (fun q => (c :: q.1, q.2)) = some p →
          ∃ pre, t = pre ++ p.2 ∧
            ∀ z, (scanString st1 (pre ++ z)).map (fun q => (c :: q.1, q.2)) = some (p.1, z) := by
      intro st1 h1
      rcases hq : scanString st1 t with _ | q
      · rw [hq] at h1; simp at h1
      · rw [hq] at h1
        obtain ⟨pre, hs, hz⟩ := ih st1 q hq
        simp only [Option.map_some', Option.some.injEq] at h1
        rw [← h1]
        exact ⟨pre, hs, fun z => by rw [hz z]; rfl⟩
    cases st with
    | inString =>
      rw [scanString] at h
      by_cases h1 : c = 34
      · rw [if_pos h1] at h
        simp only [Option.some.injEq] at h
        rw [← h]
        refine ⟨[c], rfl, fun z => ?_⟩
        rw [List.singleton_append, scanString, if_pos h1]
      rw [if_neg h1] at h
      by_cases h2 : c = 92
      · rw [if_pos h2] at h
        obtain ⟨pre, hs, hz⟩ := key _ h
        refine ⟨c :: pre, by rw [hs]; rfl, fun z => ?_⟩
        rw [List.cons_append, scanString, if_neg h1, if_pos h2]
        exact hz z
      rw [if_neg h2] at h
      by_cases h3 : c < 32
      · rw [if_pos h3] at h; simp at h
      rw [if_neg h3] at h
      obtain ⟨pre, hs, hz⟩ := key _ h
      refine ⟨c :: pre, by rw [hs]; rfl, fun z => ?_⟩
      rw [List.cons_append, scanString, if_neg h1, if_neg h2, if_neg h3]
      exact hz z
    | inStringEsc =>
      rw [scanString] at h
      by_cases h1 : c = 98 ∨ c = 102 ∨ c = 110 ∨ c = 114 ∨ c = 116 ∨ c = 92 ∨ c = 47 ∨ c = 34
      · rw [if_pos h1] at h
        obtain ⟨pre, hs, hz⟩ := key _ h
        refine ⟨c :: pre, by rw [hs]; rfl, fun z => ?_⟩
        rw [List.cons_append, scanString, if_pos h1]
        exact hz z
      rw [if_neg h1] at h
      by_cases h2 : c = 117
      · rw [if_pos h2] at h
        obtain ⟨pre, hs, hz⟩ := key _ h
        refine ⟨c :: pre, by rw [hs]; rfl, fun z => ?_⟩
        rw [List.cons_append, scanString, if_neg h1, if_pos h2]
        exact hz z
      rw [if_neg h2] at h
      simp at h
    | inStringEscU seen =>
      rw [scanString] at h
      by_cases h1 : (hexVal c).isSome = true
      · rw [if_pos h1] at h
        obtain ⟨pre, hs, hz⟩ := key _ h
        refine ⟨c :: pre, by rw [hs]; rfl, fun z => ?_⟩
        rw [List.cons_append, scanString, if_pos h1]
        exact hz z
      rw [if_neg h1] at h
      simp at h

theorem scanNumberFrom_stop (st : NumberState) (hst : st.complete = true) (z : GoString)
    (hz : endsNumber z = true) : scanNumberFrom st z = some ([], z) := by
  rcases z with _ | ⟨c, t⟩
  · rw [scanNumberFrom, if_pos hst]
  · simp only [endsNumber, continuesNumber, Bool.not_eq_true', Bool.or_eq_false_iff,
      decide_eq_false_iff_not] at hz
    obtain ⟨hd, hc⟩ := hz
    have e1 : ¬ c = 46 := by omega
    have e2 : ¬ (c = 101 ∨ c = 69) := by omega
    cases st <;> simp [NumberState.complete] at hst <;>
      simp [scanNumberFrom, hd, e1, e2]

theorem scanNumberFrom_local (s : GoString) :
    ∀ (st : NumberState) (p : GoString × GoString), scanNumberFrom st s = some p →
      s = p.1 ++ p.2 ∧
        ∀ z, endsNumber z = true → scanNumberFrom st (p.1 ++ z) = some (p.1, z) := by
  induction s with
  | nil =>
    intro st p h
    rw [scanNumberFrom] at h
    split_ifs at h with hst
    simp only [Option.some.injEq] at h
    rw [← h]
    exact ⟨rfl, fun z hz => scanNumberFrom_stop st hst z hz⟩
  | cons c t ih =>
    intro st p h
    have key : ∀ (st1 : NumberState),
        (scanNumberFrom st1 t).map (fun q => (c :: q.1, q.2)) = some p →
          c :: t = p.1 ++ p.2 ∧ ∃ l, p.1 = c :: l ∧
            ∀ z, endsNumber z = true →
              (scanNumberFrom st1 (l ++ z)).map (fun q => (c :: q.1, q.2)) = some (p.1, z) := by
      intro st1 h1
      rcases hq : scanNumberFrom st1 t with _ | q
      · rw [hq] at h1; simp at h1
      · rw [hq] at h1
        obtain ⟨hs, hz⟩ := ih st1 q hq
        simp only [Option.map_some', Option.some.injEq] at h1
        rw [← h1]
        refine ⟨by simp only [List.cons_append]; rw [← hs], q.1, rfl, fun z hze => ?_⟩
        rw [hz z hze]; rfl
    have stop : ∀ (st0 : NumberState), st0.complete = true →
        some (([] : GoString), c :: t) = some p →
          c :: t = p.1 ++ p.2 ∧
            ∀ z, endsNumber z = true → scanNumberFrom st0 (p.1 ++ z) = some (p.1, z) := by
      intro st0 hst h1
      simp only [Option.some.injEq] at h1
      rw [← h1]
      exact ⟨rfl, fun z hz => scanNumberFrom_stop st0 hst z hz⟩
    cases st with
    | neg =>
      rw [scanNumberFrom] at h
      by_cases h1 : c = 48
      · rw [if_pos h1] at h
        obtain ⟨hs, l, hl, hz⟩ := key _ h
        refine ⟨hs, fun z hze => ?_⟩
        rw [hl, List.cons_append, scanNumberFrom, if_pos h1, ← hl]
        exact hz z hze
      rw [if_neg h1] at h
      by_cases h2 : 49 ≤ c ∧ c ≤ 57
      · rw [if_pos h2] at h
        obtain ⟨hs, l, hl, hz⟩ := key _ h
        refine ⟨hs, fun z hze => ?_⟩
        rw [hl, List.cons_append, scanNumberFrom, if_neg h1, if_pos h2, ← hl]
        exact hz z hze
      rw [if_neg h2] at h
      simp at h
    | zero =>
      rw [scanNumberFrom] at h
      by_cases h1 : c = 46
      · rw [if_pos h1] at h
        obtain ⟨hs, l, hl, hz⟩ := key _ h
        refine ⟨hs, fun z hze => ?_⟩
        rw [hl, List.cons_append, scanNumberFrom, if_pos h1, ← hl]
        exact hz z hze
      rw [if_neg h1] at h
      by_cases h2 : c = 101 ∨ c = 69
      · rw [if_pos h2] at h
        obtain ⟨hs, l, hl, hz⟩ := key _ h
        refine ⟨hs, fun z hze => ?_⟩
        rw [hl, List.cons_append, scanNumberFrom, if_neg h1, if_pos h2, ← hl]
        exact hz z hze
      rw [if_neg h2] at h
      exact stop _ rfl h
    | digits =>
      rw [scanNumberFrom] at h
      by_cases h0 : isDigit c = true
      · rw [if_pos h0] at h
        obtain ⟨hs, l, hl, hz⟩ := key _ h
        refine ⟨hs, fun z hze => ?_⟩
        rw [hl, List.cons_append, scanNumberFrom, if_pos h0, ← hl]
        exact hz z hze
      rw [if_neg h0] at h
      by_cases h1 : c = 46
      · rw [if_pos h1] at h
        obtain ⟨hs, l, hl, hz⟩ := key _ h
        refine ⟨hs, fun z hze => ?_⟩
        rw [hl, List.cons_append, scanNumberFrom, if_neg h0, if_pos h1, ← hl]
        exact hz z hze
      rw [if_neg h1] at h
      by_cases h2 : c = 101 ∨ c = 69
      · rw [if_pos h2] at h
        obtain ⟨hs, l, hl, hz⟩ := key _ h
        refine ⟨hs, fun z hze => ?_⟩
        rw [hl, List.cons_append, scanNumberFrom, if_neg h0, if_neg h1, if_pos h2, ← hl]
        exact hz z hze
      rw [if_neg h2] at h
      exact stop _ rfl h
    | dot =>
      rw [scanNumberFrom] at h
      by_cases h0 : isDigit c = true
      · rw [if_pos h0] at h
        obtain ⟨hs, l, hl, hz⟩ := key _ h
        refine ⟨hs, fun z hze => ?_⟩
        rw [hl, List.cons_append, scanNumberFrom, if_pos h0, ← hl]
        exact hz z hze
      rw [if_neg h0] at h
      simp at h
    | dot0 =>
      rw [scanNumberFrom] at h
      by_cases h0 : isDigit c = true
      · rw [if_pos h0] at h
        obtain ⟨hs, l, hl, hz⟩ := key _ h
        refine ⟨hs, fun z hze => ?_⟩
        rw [hl, List.cons_append, scanNumberFrom, if_pos h0, ← hl]
        exact hz z hze
      rw [if_neg h0] at h
      by_cases h2 : c = 101 ∨ c = 69
      · rw [if_pos h2] at h
        obtain ⟨hs, l, hl, hz⟩ := key _ h
        refine ⟨hs, fun z hze => ?_⟩
        rw [hl, List.cons_append, scanNumberFrom, if_neg h0, if_pos h2, ← hl]
        exact hz z hze
      rw [if_neg h2] at h
      exact stop _ rfl h
    | e =>
      rw [scanNumberFrom] at h
      by_cases h1 : c = 43 ∨ c = 45
      · rw [if_pos h1] at h
        obtain ⟨hs, l, hl, hz⟩ := key _ h
        refine ⟨hs, fun z hze => ?_⟩
        rw [hl, List.cons_append, scanNumberFrom, if_pos h1, ← hl]
        exact hz z hze
      rw [if_neg h1] at h
      by_cases h0 : isDigit c = true
      · rw [if_pos h0] at h
        obtain ⟨hs, l, hl, hz⟩ := key _ h
        refine ⟨hs, fun z hze => ?_⟩
        rw [hl, List.cons_append, scanNumberFrom, if_neg h1, if_pos h0, ← hl]
        exact hz z hze
      rw [if_neg h0] at h
      simp at h
    | eSign =>
      rw [scanNumberFrom] at h
      by_cases h0 : isDigit c = true
      · rw [if_pos h0] at h
        obtain ⟨hs, l, hl, hz⟩ := key _ h
        refine ⟨hs, fun z hze => ?_⟩
        rw [hl, List.cons_append, scanNumberFrom, if_pos h0, ← hl]
        exact hz z hze
      rw [if_neg h0] at h
      simp at h
    | e0 =>
      rw [scanNumberFrom] at h
      by_cases h0 : isDigit c = true
      · rw [if_pos h0] at h
        obtain ⟨hs, l, hl, hz⟩ := key _ h
        refine ⟨hs, fun z hze => ?_⟩
        rw [hl, List.cons_append, scanNumberFrom, if_pos h0, ← hl]
        exact hz z hze
      rw [if_neg h0] at h
      exact stop _ rfl h

theorem scanNumber_local (s : GoString) (p : GoString × GoString)
    (h : scanNumber s = some p) :
    s = p.1 ++ p.2 ∧ ∀ z, endsNumber z = true → scanNumber (p.1 ++ z) = some (p.1, z) := by
  unfold scanNumber at h
  rcases s with _ | ⟨c, t⟩
  · simp at h
  simp only [] at h
  by_cases h1 : c = 45
  · rw [if_pos h1] at h
    rcases hq : scanNumberFrom .neg t with _ | q
    · rw [hq] at h; simp at h
    rw [hq] at h
    obtain ⟨hs, hz⟩ := scanNumberFrom_local t _ q hq
    simp only [Option.map_some', Option.some.injEq] at h
    rw [← h]
    refine ⟨by simp only [List.cons_append]; rw [← hs], fun z hze => ?_⟩
    simp only [List.cons_append, scanNumber]
    rw [if_pos h1, hz z hze]; rfl
  · rw [if_neg h1] at h
    obtain ⟨hs, hz⟩ := scanNumberFrom_local _ _ p h
    refine ⟨hs, fun z hze => ?_⟩
    have hne : ∃ l, p.1 = c :: l := by
      rcases hp : p.1 with _ | ⟨a, l⟩
      · -- the literal is not empty: in the state `neg` the first byte is consumed
        rw [scanNumberFrom] at h
        split_ifs at h <;>
          (rcases hq : scanNumberFrom _ t with _ | q
           · rw [hq] at h; simp at h
           · rw [hq] at h
             simp only [Option.map_some', Option.some.injEq] at h
             rw [← h] at hp
             simp at hp)
      · rw [hp] at hs
        simp only [List.cons_append] at hs
        exact ⟨l, by rw [(List.cons.inj hs).1]⟩
    obtain ⟨l, hl⟩ := hne
    have := hz z hze
    rw [hl] at this ⊢
    simp only [List.cons_append, scanNumber] at this ⊢
    rw [if_neg h1]
    exact this

theorem lit_true : lit "true" = [116, 114, 117, 101] := by decide
theorem lit_false : lit "false" = [102, 97, 108, 115, 101] := by decide
theorem lit_null : lit "null" = [110, 117, 108, 108] := by decide

theorem cons_of_append_shorter (a : Nat) (t pre r : GoString) (h : a :: t = pre ++ r)
    (hlen : r.length < (a :: t).length) : ∃ l, pre = a :: l := by
  rcases pre with _ | ⟨b, l⟩
  · simp only [List.nil_append] at h
    rw [← h] at hlen
    omega
  · simp only [List.cons_append] at h
    exact ⟨l, by rw [(List.cons.inj h).1]⟩

/-- The result of the parser depends on the bytes of the value only: put
before any other input, they are read as the same value, and that input is
left over. After a number the input must not continue the number. -/
theorem parse_local (n : Nat) :
    (∀ s p, parseValue n s = some p →
      ∃ pre, s = pre ++ p.2 ∧ ∀ m, n ≤ m → ∀ z,
        (p.1.isNumber = false ∨ endsNumber z = true) →
          parseValue m (pre ++ z) = some (p.1, z)) ∧
    (∀ s p, parseMembers n s = some p →
      ∃ pre, s = pre ++ p.2 ∧ ∀ m, n ≤ m → ∀ z, parseMembers m (pre ++ z) = some (p.1, z)) ∧
    (∀ s p, parseElements n s = some p →
      ∃ pre, s = pre ++ p.2 ∧ ∀ m, n ≤ m → ∀ z,
        parseElements m (pre ++ z) = some (p.1, z)) := by
  induction n with
  | zero => simp [parseValue, parseMembers, parseElements]
  | succ n ih =>
    obtain ⟨ihV, ihM, ihE⟩ := ih
    obtain ⟨cV, cM, cE⟩ := parse_consumes n
    refine ⟨?_, ?_, ?_⟩
    · intro s p h
      rw [parseValue] at h
      rcases hs : skipSpace s with _ | ⟨c, t⟩
      · rw [hs] at h; simp at h
      obtain ⟨ws, hws, hsk⟩ := skipSpace_local s c t hs
      rw [hs] at h
      simp only [] at h
      by_cases h1 : c = 123
      · rw [if_pos h1] at h
        rcases ht : skipSpace t with _ | ⟨c1, t1⟩
        · rw [ht] at h; simp at h
        obtain ⟨ws1, hws1, hsk1⟩ := skipSpace_local t c1 t1 ht
        rw [ht] at h
        simp only [] at h
        by_cases h2 : c1 = 125
        · rw [if_pos h2] at h
          simp only [Option.some.injEq] at h
          rw [← h]
          refine ⟨ws ++ c :: (ws1 ++ [c1]), by rw [hws, hws1]; simp, fun m hm z _ => ?_⟩
          obtain ⟨m, rfl⟩ : ∃ k, m = k + 1 := ⟨m - 1, by omega⟩
          have e : (ws ++ c :: (ws1 ++ [c1])) ++ z = ws ++ c :: (ws1 ++ c1 :: z) := by simp
          rw [e, parseValue, hsk]
          simp only []
          rw [if_pos h1, hsk1]
          simp only []
          rw [if_pos h2]
        · rw [if_neg h2] at h
          rcases hq : parseMembers n (c1 :: t1) with _ | q
          · rw [hq] at h; simp at h
          rw [hq] at h
          simp only [Option.map_some', Option.some.injEq] at h
          obtain ⟨preM, hpm, hzm⟩ := ihM _ q hq
          obtain ⟨l, hl⟩ := cons_of_append_shorter c1 t1 preM q.2 hpm (cM _ q hq)
          rw [← h]
          refine ⟨ws ++ c :: (ws1 ++ preM), by rw [hws, hws1, hpm]; simp, fun m hm z _ => ?_⟩
          obtain ⟨m, rfl⟩ : ∃ k, m = k + 1 := ⟨m - 1, by omega⟩
          have e : (ws ++ c :: (ws1 ++ preM)) ++ z = ws ++ c :: (ws1 ++ c1 :: (l ++ z)) := by
            rw [hl]; simp
          have hz := hzm m (by omega) z
          rw [hl, List.cons_append] at hz
          rw [e, parseValue, hsk]
          simp only []
          rw [if_pos h1, hsk1]
          simp only []
          rw [if_neg h2, hz]
          rfl
      rw [if_neg h1] at h
      by_cases h3 : c = 91
      · rw [if_pos h3] at h
        rcases ht : skipSpace t with _ | ⟨c1, t1⟩
        · rw [ht] at h; simp at h
        obtain ⟨ws1, hws1, hsk1⟩ := skipSpace_local t c1 t1 ht
        rw [ht] at h
        simp only [] at h
        by_cases h2 : c1 = 93
        · rw [if_pos h2] at h
          simp only [Option.some.injEq] at h
          rw [← h]
          refine ⟨ws ++ c :: (ws1 ++ [c1]), by rw [hws, hws1]; simp, fun m hm z _ => ?_⟩
          obtain ⟨m, rfl⟩ : ∃ k, m = k + 1 := ⟨m - 1, by omega⟩
          have e : (ws ++ c :: (ws1 ++ [c1])) ++ z = ws ++ c :: (ws1 ++ c1 :: z) := by simp
          rw [e, parseValue, hsk]
          simp only []
          rw [if_neg h1, if_pos h3, hsk1]
          simp only []
          rw [if_pos h2]
        · rw [if_neg h2] at h
          rcases hq : parseElements n (c1 :: t1) with _ | q
          · rw [hq] at h; simp at h
          rw [hq] at h
          simp only [Option.map_some', Option.some.injEq] at h
          obtain ⟨preM, hpm, hzm⟩ := ihE _ q hq
          obtain ⟨l, hl⟩ := cons_of_append_shorter c1 t1 preM q.2 hpm (cE _ q hq)
          rw [← h]
          refine ⟨ws ++ c :: (ws1 ++ preM), by rw [hws, hws1, hpm]; simp, fun m hm z _ => ?_⟩
          obtain ⟨m, rfl⟩ : ∃ k, m = k + 1 := ⟨m - 1, by omega⟩
          have e : (ws ++ c :: (ws1 ++ preM)) ++ z = ws ++ c :: (ws1 ++ c1 :: (l ++ z)) := by
            rw [hl]; simp
          have hz := hzm m (by omega) z
          rw [hl, List.cons_append] at hz
          rw [e, parseValue, hsk]
          simp only []
          rw [if_neg h1, if_pos h3, hsk1]
          simp only []
          rw [if_neg h2, hz]
          rfl
      rw [if_neg h3] at h
      by_cases h4 : c = 34
      · rw [if_pos h4] at h
        rcases hq : scanString .inString t with _ | q
        · rw [hq] at h; simp at h
        rw [hq] at h
        simp only [Option.map_some', Option.some.injEq] at h
        obtain ⟨preS, hps, hzs⟩ := scanString_local t _ q hq
        rw [← h]
        refine ⟨ws ++ c :: preS, by rw [hws, hps]; simp, fun m hm z _ => ?_⟩
        obtain ⟨m, rfl⟩ : ∃ k, m = k + 1 := ⟨m - 1, by omega⟩
        have e : (ws ++ c :: preS) ++ z = ws ++ c :: (preS ++ z) := by simp
        rw [e, parseValue, hsk]
        simp only []
        rw [if_neg h1, if_neg h3, if_pos h4, hzs z]
        rfl
      rw [if_neg h4] at h
      by_cases h5 : c = 45 ∨ isDigit c = true
      · rw [if_pos h5] at h
        rcases hq : scanNumber (c :: t) with _ | q
        · rw [hq] at h; simp at h
        rw [hq] at h
        simp only [Option.map_some', Option.some.injEq] at h
        obtain ⟨hsn, hzn⟩ := scanNumber_local _ q hq
        obtain ⟨l, hl⟩ := cons_of_append_shorter c t q.1 q.2 hsn (scanNumber_length _ q hq)
        rw [← h]
        refine ⟨ws ++ q.1, by rw [hws, hsn]; simp, fun m hm z hz => ?_⟩
        obtain ⟨m, rfl⟩ : ∃ k, m = k + 1 := ⟨m - 1, by omega⟩
        have hze : endsNumber z = true := by
          rcases hz with hz | hz
          · simp [JSON.isNumber] at hz
          · exact hz
        have e : (ws ++ q.1) ++ z = ws ++ c :: (l ++ z) := by rw [hl]; simp
        have hn := hzn z hze
        rw [hl, List.cons_append] at hn
        rw [e, parseValue, hsk]
        simp only []
        rw [if_neg h1, if_neg h3, if_neg h4, if_pos h5, hn]
        simp only [Option.map_some', hl]
      rw [if_neg h5] at h
      by_cases h6 : (c :: t).take 4 = lit "true"
      · rw [if_pos h6] at h
        simp only [Option.some.injEq] at h
        rw [← h]
        refine ⟨ws ++ (c :: t).take 4, by rw [hws, List.append_assoc, List.take_append_drop],
          fun m hm z _ => ?_⟩
        obtain ⟨m, rfl⟩ : ∃ k, m = k + 1 := ⟨m - 1, by omega⟩
        have hc : c = 116 := by rw [lit_true] at h6; simp at h6; exact h6.1
        have e : (ws ++ (c :: t).take 4) ++ z = ws ++ c :: ([114, 117, 101] ++ z) := by
          rw [h6, lit_true, hc]; simp
        rw [e, parseValue, hsk]
        simp only []
        rw [if_neg h1, if_neg h3, if_neg h4, if_neg h5]
        simp [hc, lit_true]
      rw [if_neg h6] at h
      by_cases h7 : (c :: t).take 5 = lit "false"
      · rw [if_pos h7] at h
        simp only [Option.some.injEq] at h
        rw [← h]
        refine ⟨ws ++ (c :: t).take 5, by rw [hws, List.append_assoc, List.take_append_drop],
          fun m hm z _ => ?_⟩
        obtain ⟨m, rfl⟩ : ∃ k, m = k + 1 := ⟨m - 1, by omega⟩
        have hc : c = 102 := by rw [lit_false] at h7; simp at h7; exact h7.1
        have e : (ws ++ (c :: t).take 5) ++ z = ws ++ c :: ([97, 108, 115, 101] ++ z) := by
          rw [h7, lit_false, hc]; simp
        rw [e, parseValue, hsk]
        simp only []
        rw [if_neg h1, if_neg h3, if_neg h4, if_neg h5]
        simp [hc, lit_true, lit_false]
      rw [if_neg h7] at h
      by_cases h8 : (c :: t).take 4 = lit "null"
      · rw [if_pos h8] at h
        simp only [Option.some.injEq] at h
        rw [← h]
        refine ⟨ws ++ (c :: t).take 4, by rw [hws, List.append_assoc, List.take_append_drop],
          fun m hm z _ => ?_⟩
        obtain ⟨m, rfl⟩ : ∃ k, m = k + 1 := ⟨m - 1, by omega⟩
        have hc : c = 110 := by rw [lit_null] at h8; simp at h8; exact h8.1
        have e : (ws ++ (c :: t).take 4) ++ z = ws ++ c :: ([117, 108, 108] ++ z) := by
          rw [h8, lit_null, hc]; simp
        rw [e, parseValue, hsk]
        simp only []
        rw [if_neg h1, if_neg h3, if_neg h4, if_neg h5]
        simp [hc, lit_true, lit_false, lit_null]
      rw [if_neg h8] at h
      simp at h
    · intro s p h
      rw [parseMembers] at h
      rcases hs : skipSpace s with _ | ⟨q, t⟩
      · rw [hs] at h; simp at h
      obtain ⟨ws, hws, hsk⟩ := skipSpace_local s q t hs
      rw [hs] at h
      simp only [] at h
      by_cases h1 : q = 34
      · rw [if_pos h1] at h
        rcases hk : scanString .inString t with _ | k
        · rw [hk] at h; simp at h
        rw [hk] at h
        simp only [] at h
        obtain ⟨preS, hps, hzs⟩ := scanString_local t _ k hk
        rcases hc : skipSpace k.2 with _ | ⟨colon, r1⟩
        · rw [hc] at h; simp at h
        obtain ⟨ws2, hws2, hsk2⟩ := skipSpace_local k.2 colon r1 hc
        rw [hc] at h
        simp only [] at h
        by_cases h2 : colon = 58
        · rw [if_pos h2] at h
          rcases hv : parseValue n r1 with _ | v
          · rw [hv] at h; simp at h
          rw [hv] at h
          simp only [] at h
          obtain ⟨preV, hpv, hzv⟩ := ihV _ v hv
          rcases hx : skipSpace v.2 with _ | ⟨c, r2⟩
          · rw [hx] at h; simp at h
          obtain ⟨ws3, hws3, hsk3⟩ := skipSpace_local v.2 c r2 hx
          rw [hx] at h
          simp only [] at h
          by_cases h3 : c = 44
          · rw [if_pos h3] at h
            rcases hq : parseMembers n r2 with _ | q2
            · rw [hq] at h; simp at h
            rw [hq] at h
            simp only [Option.map_some', Option.some.injEq] at h
            obtain ⟨preM, hpm, hzm⟩ := ihM _ q2 hq
            have hcont : continuesNumber c = false := by rw [h3]; decide
            rw [← h]
            refine ⟨ws ++ q :: (preS ++ (ws2 ++ colon :: (preV ++ (ws3 ++ c :: preM)))),
              by rw [hws, hps, hws2, hpv, hws3, hpm]; simp, fun m hm z => ?_⟩
            obtain ⟨m, rfl⟩ : ∃ k, m = k + 1 := ⟨m - 1, by omega⟩
            have e : (ws ++ q :: (preS ++ (ws2 ++ colon :: (preV ++ (ws3 ++ c :: preM))))) ++ z
                = ws ++ q :: (preS ++ (ws2 ++ colon :: (preV ++ (ws3 ++ c :: (preM ++ z))))) := by
              simp
            rw [e, parseMembers, hsk]
            simp only []
            rw [if_pos h1, hzs]
            simp only []
            rw [hsk2]
            simp only []
            rw [if_pos h2, hzv m (by omega) _
              (Or.inr (endsNumber_of_skipSpace _ c _ (hsk3 _) hcont))]
            simp only []
            rw [hsk3]
            simp only []
            rw [if_pos h3, hzm m (by omega) z]
            rfl
          rw [if_neg h3] at h
          by_cases h4 : c = 125
          · rw [if_pos h4] at h
            simp only [Option.some.injEq] at h
            have hcont : continuesNumber c = false := by rw [h4]; decide
            rw [← h]
            refine ⟨ws ++ q :: (preS ++ (ws2 ++ colon :: (preV ++ (ws3 ++ [c])))),
              by rw [hws, hps, hws2, hpv, hws3]; simp, fun m hm z => ?_⟩
            obtain ⟨m, rfl⟩ : ∃ k, m = k + 1 := ⟨m - 1, by omega⟩
            have e : (ws ++ q :: (preS ++ (ws2 ++ colon :: (preV ++ (ws3 ++ [c]))))) ++ z
                = ws ++ q :: (preS ++ (ws2 ++ colon :: (preV ++ (ws3 ++ c :: z)))) := by
              simp
            rw [e, parseMembers, hsk]
            simp only []
            rw [if_pos h1, hzs]
            simp only []
            rw [hsk2]
            simp only []
            rw [if_pos h2, hzv m (by omega) _
              (Or.inr (endsNumber_of_skipSpace _ c _ (hsk3 _) hcont))]
            simp only []
            rw [hsk3]
            simp only []
            rw [if_neg h3, if_pos h4]
          rw [if_neg h4] at h
          simp at h
        rw [if_neg h2] at h
        simp at h
      rw [if_neg h1] at h
      simp at h
    · intro s p h
      rw [parseElements] at h
      rcases hv : parseValue n s with _ | v
      · rw [hv] at h; simp at h
      rw [hv] at h
      simp only [] at h
      obtain ⟨preV, hpv, hzv⟩ := ihV _ v hv
      rcases hx : skipSpace v.2 with _ | ⟨c, r2⟩
      · rw [hx] at h; simp at h
      obtain ⟨ws3, hws3, hsk3⟩ := skipSpace_local v.2 c r2 hx
      rw [hx] at h
      simp only [] at h
      by_cases h3 : c = 44
      · rw [if_pos h3] at h
        rcases hq : parseElements n r2 with _ | q2
        · rw [hq] at h; simp at h
        rw [hq] at h
        simp only [Option.map_some', Option.some.injEq] at h
        obtain ⟨preM, hpm, hzm⟩ := ihE _ q2 hq
        have hcont : continuesNumber c = false := by rw [h3]; decide
        rw [← h]
        refine ⟨preV ++ (ws3 ++ c :: preM),
          by rw [hpv, hws3, hpm]; simp, fun m hm z => ?_⟩
        obtain ⟨m, rfl⟩ : ∃ k, m = k + 1 := ⟨m - 1, by omega⟩
        have e : (preV ++ (ws3 ++ c :: preM)) ++ z = preV ++ (ws3 ++ c :: (preM ++ z)) := by
          simp
        rw [e, parseElements, hzv m (by omega) _
          (Or.inr (endsNumber_of_skipSpace _ c _ (hsk3 _) hcont))]
        simp only []
        rw [hsk3]
        simp only []
        rw [if_pos h3, hzm m (by omega) z]
        rfl
      rw [if_neg h3] at h
      by_cases h4 : c = 93
      · rw [if_pos h4] at h
        simp only [Option.some.injEq] at h
        have hcont : continuesNumber c = false := by rw [h4]; decide
        rw [← h]
        refine ⟨preV ++ (ws3 ++ [c]), by rw [hpv, hws3]; simp, fun m hm z => ?_⟩
        obtain ⟨m, rfl⟩ : ∃ k, m = k + 1 := ⟨m - 1, by omega⟩
        have e : (preV ++ (ws3 ++ [c])) ++ z = preV ++ (ws3 ++ c :: z) := by simp
        rw [e, parseElements, hzv m (by omega) _
          (Or.inr (endsNumber_of_skipSpace _ c _ (hsk3 _) hcont))]
        simp only []
        rw [hsk3]
        simp only []
        rw [if_neg h3, if_pos h4]
      rw [if_neg h4] at h
      simp at h

/-! ## Lemmas: the decode step reads the first value of the body -/

theorem parseValue_blank (n : Nat) (s : GoString) (h : skipSpace s = []) :
    parseValue n s = none := by
  cases n with
  | zero => rw [parseValue]
  | succ n => rw [parseValue, h]

/-- The value that `readValue` returns is the value of a prefix of the body
that is a JSON text of its own. -/
theorem readValue_cut (body : GoString) (v : JSON) (h : readValue body = some v) :
    ∃ p ∈ body.inits, parseText p = some v := by
  unfold readValue at h
  rcases hp : parseValue (parseFuel body) body with _ | q
  · rw [hp] at h; simp at h
  rw [hp] at h
  simp only [Option.some.injEq] at h
  obtain ⟨pre, hpre, hz⟩ := (parse_local (parseFuel body)).1 body q hp
  have h1 := hz (parseFuel body) (le_refl _) [] (Or.inr rfl)
  rw [List.append_nil] at h1
  have hle : parseFuel pre ≤ parseFuel body := by
    have hl : body.length = pre.length + q.2.length := by
      rw [← List.length_append, ← hpre]
    unfold parseFuel
    omega
  refine ⟨pre, (List.mem_inits _ _).mpr ⟨q.2, hpre.symm⟩, ?_⟩
  unfold parseText
  rw [← parseValue_fuel pre _ hle, h1]
  simp [skipSpace, h]

/-- A JSON text other than a number is read as the first value of every body
that it begins. -/
theorem readValue_append (p x : GoString) (v : JSON) (h : parseText p = some v)
    (hv : v.isNumber = false) : readValue (p ++ x) = some v := by
  unfold parseText at h
  rcases hp : parseValue (parseFuel p) p with _ | ⟨v1, rest⟩
  · rw [hp] at h; simp at h
  rw [hp] at h
  simp only [] at h
  by_cases hs : skipSpace rest = []
  · rw [if_pos hs] at h
    simp only [Option.some.injEq] at h
    subst h
    obtain ⟨pre, hpre, hz⟩ := (parse_local (parseFuel p)).1 p _ hp
    have h1 := hz (parseFuel (p ++ x))
      (by unfold parseFuel; simp only [List.length_append]; omega) (rest ++ x) (Or.inl hv)
    have e : pre ++ (rest ++ x) = p ++ x := by
      rw [← List.append_assoc]
      exact congrArg (· ++ x) hpre.symm
    rw [e] at h1
    unfold readValue
    rw [h1]
  · rw [if_neg hs] at h
    simp at h

theorem storeStruct_isNumber {α : Type} (f : α → GoString → JSON → Option α) (cur y : α)
    (v : JSON) (h : storeStruct f cur v = some y) : v.isNumber = false := by
  cases v <;> simp [storeStruct, JSON.isNumber] at h ⊢

/-- A body that begins with a well-formed envelope is decoded as that
envelope, whatever follows it. -/
theorem decode_envelope_first (rt : Runtime) (p x : GoString)
    (h : wellFormedEnvelope rt p = true) :
    ∃ req, Decode rt p = .ok req ∧ Decode rt (p ++ x) = .ok req := by
  unfold wellFormedEnvelope at h
  rcases hp : parseText p with _ | v
  · rw [hp] at h; simp at h
  rw [hp] at h
  simp only [] at h
  rcases hs : storeStruct (Request.setField rt) Request.zero v with _ | req
  · rw [hs] at h; simp at h
  have hv := storeStruct_isNumber _ _ _ v hs
  have h1 := readValue_append p [] v hp hv
  have h2 := readValue_append p x v hp hv
  rw [List.append_nil] at h1
  exact ⟨req, by unfold Decode; rw [h1]; simp only [hs],
    by unfold Decode; rw [h2]; simp only [hs]⟩

/-- A body none of whose prefixes is a well-formed envelope is rejected by
`Decode`, with the error `io.EOF` when it is blank. -/
theorem decode_rejects (rt : Runtime) (body : GoString)
    (h : ∀ p ∈ body.inits, wellFormedEnvelope rt p = false) :
    Decode rt body =
      .error (if skipSpace body = [] then lit "EOF" else rt.decodeErrorText body) := by
  unfold Decode
  rcases hr : readValue body with _ | v
  · rfl
  · obtain ⟨p, hp, hpt⟩ := readValue_cut body v hr
    have hwf := h p hp
    unfold wellFormedEnvelope at hwf
    rw [hpt] at hwf
    have hne : skipSpace body ≠ [] := by
      intro hb
      unfold readValue at hr
      rw [parseValue_blank _ _ hb] at hr
      simp at hr
    rcases hs : storeStruct (Request.setField rt) Request.zero v with _ | req
    · simp only []
      rw [if_neg hne, hs]
    · simp only [] at hwf
      rw [hs] at hwf
      simp at hwf

/-- The word `null` followed at once by another byte: `Decode` takes the
word as the first value of the body and leaves the envelope as it is. -/
theorem decode_null_followed :
    Decode Runtime.sample (lit "nullx") = .ok Request.zero := rfl

theorem serveHTTP_undecoded (rt : Runtime) (h : Handler) (w : ResponseWriter)
    (r : HttpRequest) (e : GoString) (hdec : Decode rt r.Body = .error e) :
    h.ServeHTTP rt w r =
      { w := httpError w (lit "could not decode request: " ++ e) StatusBadRequest,
        calls := [] } := by
  simp only [Handler.ServeHTTP, hdec]

/-- Once the body is decoded, the reply has the status 500 or 200. -/
theorem serveHTTP_decoded_status (rt : Runtime) (h : Handler) (w : ResponseWriter)
    (r : HttpRequest) (req : Request) (hw : w.status = none)
    (hdec : Decode rt r.Body = .ok req) :
    (h.ServeHTTP rt w r).w.status = some 500 ∨ (h.ServeHTTP rt w r).w.status = some 200 := by
  rcases hreg : h.handlers req.Result.Metadata.IntentName with _ | handler
  · have hs : h.ServeHTTP rt w r =
        { w := httpError w (lit "could not find handler for " ++ req.Result.Metadata.IntentName)
            StatusInternalServerError,
          calls := [] } := by
      simp only [Handler.ServeHTTP, hdec, hreg]
    rw [hs]
    exact Or.inl (httpError_status _ _ _ hw)
  · rw [serveHTTP_routed rt h w r req handler hdec hreg]
    rcases handler (Context.WithValue r.Context httpRequestKey (.request r)) req with
      ⟨res, _ | err⟩
    · exact Or.inr (write_status _ _ hw)
    · exact Or.inl (httpError_status _ _ _ hw)

/-! ## The claim on malformed bodies -/

/-- C2, counterexample: the body below is the envelope of the example
followed by a stray closing brace. It is not well-formed JSON, yet `Decode`
reads the first value and stops, so the router answers 200 and calls the
handler of `double`. -/
theorem malformed_body_counterexample :
    wellFormedEnvelope Runtime.sample (exampleBody "double" "21" ++ lit "\x7d") = false ∧
    ((mainHandler Runtime.sample).ServeHTTP Runtime.sample ResponseWriter.fresh
      (post (exampleBody "double" "21" ++ lit "\x7d"))).w.status = some 200 ∧
    ((mainHandler Runtime.sample).ServeHTTP Runtime.sample ResponseWriter.fresh
      (post (exampleBody "double" "21" ++ lit "\x7d"))).calls.length = 1 := by
  set_option maxRecDepth 100000 in decide

/-- C2, amended: for every registry state and every request body none of
whose prefixes (the body itself included) is well-formed JSON for the
`Request` envelope, that is, a body that is blank, cut short, syntactically
invalid before its first value ends, or whose first value does not fit the
envelope, `ServeHTTP` responds with status 400 and the message
`could not decode request: ` followed by the text of the decoding error
(`EOF` for a blank body), and calls no handler. The condition cannot be
relaxed: a body that begins with a well-formed envelope is decoded as that
envelope whatever bytes follow it, and is not answered with status 400. -/
theorem malformed_body_bad_request (rt : Runtime) (h : Handler) (w : ResponseWriter)
    (r : HttpRequest) (hw : w.status = none)
    (hbody : ∀ p ∈ r.Body.inits, wellFormedEnvelope rt p = false) :
    (h.ServeHTTP rt w r).w.status = some 400 ∧
    (h.ServeHTTP rt w r).w.body =
      w.body ++ lit "could not decode request: " ++
        (if skipSpace r.Body = [] then lit "EOF" else rt.decodeErrorText r.Body) ++ [10] ∧
    (h.ServeHTTP rt w r).calls = [] ∧
    ∀ (q : HttpRequest) (p : GoString), p ∈ q.Body.inits → wellFormedEnvelope rt p = true →
      (∃ req, Decode rt p = .ok req ∧ Decode rt q.Body = .ok req) ∧
      (h.ServeHTTP rt w q).w.status ≠ some 400 := by
  refine ⟨?_, ?_, ?_, ?_⟩
  · rw [serveHTTP_undecoded rt h w r _ (decode_rejects rt r.Body hbody)]
    exact httpError_status _ _ _ hw
  · rw [serveHTTP_undecoded rt h w r _ (decode_rejects rt r.Body hbody)]
    simp [httpError_body _ _ _ hw]
  · rw [serveHTTP_undecoded rt h w r _ (decode_rejects rt r.Body hbody)]
  · intro q p hp hwf
    obtain ⟨x, hx⟩ := (List.mem_inits _ _).mp hp
    obtain ⟨req, h1, h2⟩ := decode_envelope_first rt p x hwf
    rw [hx] at h2
    refine ⟨⟨req, h1, h2⟩, ?_⟩
    rcases serveHTTP_decoded_status rt h w q req hw h2 with hs | hs <;> rw [hs] <;> decide

/-- C2, witness: a body cut short after the key `result`, and the empty
body. -/
theorem malformed_body_bad_request_witness :
    (∀ p ∈ (post (lit "\x7b\"result\":")).Body.inits,
      wellFormedEnvelope Runtime.sample p = false) ∧
    ((mainHandler Runtime.sample).ServeHTTP Runtime.sample ResponseWriter.fresh
      (post (lit "\x7b\"result\":"))).w.status = some 400 ∧
    ((mainHandler Runtime.sample).ServeHTTP Runtime.sample ResponseWriter.fresh
      (post (lit "\x7b\"result\":"))).w.body =
        lit "could not decode request: unexpected EOF\n" ∧
    ((mainHandler Runtime.sample).ServeHTTP Runtime.sample ResponseWriter.fresh
      (post (lit "\x7b\"result\":"))).calls = [] ∧
    ((mainHandler Runtime.sample).ServeHTTP Runtime.sample ResponseWriter.fresh
      (post [])).w.body = lit "could not decode request: EOF\n" :=
  ⟨by set_option maxRecDepth 100000 in decide,
   (malformed_body_bad_request Runtime.sample (mainHandler Runtime.sample)
      ResponseWriter.fresh (post (lit "\x7b\"result\":")) rfl
      (by set_option maxRecDepth 100000 in decide)).1,
   (malformed_body_bad_request Runtime.sample (mainHandler Runtime.sample)
      ResponseWriter.fresh (post (lit "\x7b\"result\":")) rfl
      (by set_option maxRecDepth 100000 in decide)).2.1,
   (malformed_body_bad_request Runtime.sample (mainHandler Runtime.sample)
      ResponseWriter.fresh (post (lit "\x7b\"result\":")) rfl
      (by set_option maxRecDepth 100000 in decide)).2.2.1,
   (malformed_body_bad_request Runtime.sample (mainHandler Runtime.sample)
      ResponseWriter.fresh (post []) rfl (by decide)).2.1⟩

end Apiai
